import Mathlib

/-!
Shallow embedding of `src/quadtree.h` (a 2D point quadtree in C).

Coordinates are modelled by `ℚ` (the C code uses `float`; the spec describes
the geometry over exact closed intervals, and all divisions performed by the
code are divisions by 2, which are exact).  The opaque `void *data` payload is
modelled by a `ℕ` identifier: the tree only copies it around.

The C node carries a separate `obj_count` field; at every site the code keeps
`obj_count` equal to the number of valid entries of the `objects` buffer
(append writes at index `obj_count` and increments it, `QT_Subdivide` resets it
to 0 exactly when it frees the buffer), so the model stores the buffer as an
`Option (List QT_Object)` (`none` = `NULL` pointer) and `obj_count` is its
length.  `QT_Subdivide` assigns all four `branches` slots together and
`QT_New` nulls all four together, and `QT_IsLeaf` tests `branches[0] == NULL`;
the model therefore stores the four children as one optional quadruple.

`QT_Insert` and `QT_Subdivide` are mutually recursive in C; their termination
relies on the `depth <= QT_MAX_DEPTH` guard.  The model defines the pair of
functions by structural recursion on a fuel bound (`QT_F`), and the exported
`QT_Insert` / `QT_Subdivide` apply the fuel `QT_MAX_DEPTH + 2`, which is shown
sufficient for every tree reachable from a fresh root (depth 1): every
recursive call descends one depth level and recursion stops past the maximum
depth, exactly as in the C code.
-/

namespace Quadtree

/-- The `Vec2` 2D point/vector type from `linear_algebra.h`: fields `x`, `y`. -/
structure Vec2 where
  x : ℚ
  y : ℚ
deriving DecidableEq, Repr

/-- `Boundary`: axis-aligned rectangle, `pos` is the center, `half_dim` the
half extents. -/
structure Boundary where
  pos : Vec2
  half_dim : Vec2
deriving DecidableEq, Repr

/-- `BoundaryContains`: the point lies in the closed rectangle
`[pos.x - half_dim.x, pos.x + half_dim.x] × [pos.y - half_dim.y, pos.y + half_dim.y]`. -/
def BoundaryContains (b : Boundary) (pos : Vec2) : Bool :=
  (decide (pos.x ≥ b.pos.x - b.half_dim.x) && decide (pos.x ≤ b.pos.x + b.half_dim.x)) &&
    (decide (pos.y ≥ b.pos.y - b.half_dim.y) && decide (pos.y ≤ b.pos.y + b.half_dim.y))

/-- `BoundaryIntersects`: separating-axis test with strict comparisons
(`fabs` modelled by the exact absolute value). -/
def BoundaryIntersects (a b : Boundary) : Bool :=
  if |a.pos.x - b.pos.x| > a.half_dim.x + b.half_dim.x then false
  else if |a.pos.y - b.pos.y| > a.half_dim.y + b.half_dim.y then false
  else true

/-- `QT_Object`: an opaque payload reference paired with a position. -/
structure QT_Object where
  data : ℕ
  pos : Vec2
deriving DecidableEq, Repr

/-- `QT_MAX_DEPTH` from the `#define`. -/
def QT_MAX_DEPTH : ℕ := 10

/-- The `QuadTree` node struct.  `objects = none` models a `NULL` objects
pointer; `branches = none` models the all-`NULL` children state. -/
inductive QuadTree : Type where
  | mk (boundary : Boundary) (objects : Option (List QT_Object)) (capacity : ℕ)
      (depth : ℕ) (branches : Option (QuadTree × QuadTree × QuadTree × QuadTree))

def QuadTree.boundary : QuadTree → Boundary
  | .mk b _ _ _ _ => b

def QuadTree.objects : QuadTree → Option (List QT_Object)
  | .mk _ o _ _ _ => o

def QuadTree.capacity : QuadTree → ℕ
  | .mk _ _ c _ _ => c

def QuadTree.depth : QuadTree → ℕ
  | .mk _ _ _ d _ => d

def QuadTree.branches : QuadTree → Option (QuadTree × QuadTree × QuadTree × QuadTree)
  | .mk _ _ _ _ br => br

/-- The list of objects stored directly in a node's buffer (empty for a
`NULL` buffer).  `obj_count` in the C struct is the length of this list. -/
def objList (qt : QuadTree) : List QT_Object :=
  qt.objects.getD []

/-- The node's `obj_count` field. -/
def QT_obj_count (qt : QuadTree) : ℕ :=
  (objList qt).length

/-- `QT_New`: fresh leaf with an allocated empty buffer, depth 1, no children. -/
def QT_New (b : Boundary) (capacity : ℕ) : QuadTree :=
  .mk b (some []) capacity 1 none

/-- `QT_IsLeaf`: tests `branches[0] == NULL` (the four slots are always
assigned together). -/
def QT_IsLeaf (qt : QuadTree) : Bool :=
  qt.branches.isNone

/-- The four child boundaries computed by `QT_Subdivide`, in slot order
0 = northwest, 1 = southwest, 2 = northeast, 3 = southeast (the four literal
boundary expressions `b_northwest` .. `b_southeast` in the C function; indices
other than 0..3 are never used and default to the parent boundary). -/
def childBoundary (b : Boundary) (i : ℕ) : Boundary :=
  let chw := b.half_dim.x / 2
  let chh := b.half_dim.y / 2
  match i with
  | 0 => ⟨⟨b.pos.x - chw, b.pos.y - chh⟩, ⟨chw, chh⟩⟩
  | 1 => ⟨⟨b.pos.x - chw, b.pos.y + chh⟩, ⟨chw, chh⟩⟩
  | 2 => ⟨⟨b.pos.x + chw, b.pos.y - chh⟩, ⟨chw, chh⟩⟩
  | 3 => ⟨⟨b.pos.x + chw, b.pos.y + chh⟩, ⟨chw, chh⟩⟩
  | _ => b

/-- Index of the first child boundary (in slot order) containing the point,
`none` if no child contains it. -/
def childIdx (b : Boundary) (p : Vec2) : Option ℕ :=
  if BoundaryContains (childBoundary b 0) p = true then some 0
  else if BoundaryContains (childBoundary b 1) p = true then some 1
  else if BoundaryContains (childBoundary b 2) p = true then some 2
  else if BoundaryContains (childBoundary b 3) p = true then some 3
  else none

/-- Append into the node's buffer: `qt->objects[qt->obj_count++] = *obj`
(only executed with a non-`NULL` buffer). -/
def QT_append (qt : QuadTree) (obj : QT_Object) : QuadTree :=
  .mk qt.boundary (some (objList qt ++ [obj])) qt.capacity qt.depth qt.branches

/-- The overflow branch at the end of `QT_Insert`: double the capacity,
`realloc` the buffer (`realloc(NULL, _)` allocates) and append. -/
def QT_grow (qt : QuadTree) (obj : QT_Object) : QuadTree :=
  .mk qt.boundary (some (objList qt ++ [obj])) (qt.capacity * 2) qt.depth qt.branches

/-- One pass of the `for (i = 0; i < 4; i++) if (QT_Insert(branches[i], obj)) ...`
loop, parameterized by the insertion function: each child is updated in place;
the loop stops at the first child whose insert returns true.  Returns the
updated children and whether some child accepted. -/
def tryInsert4 (ins : QuadTree → QT_Object → QuadTree × Bool)
    (cs : QuadTree × QuadTree × QuadTree × QuadTree) (obj : QT_Object) :
    (QuadTree × QuadTree × QuadTree × QuadTree) × Bool :=
  let p0 := ins cs.1 obj
  if p0.2 then ((p0.1, cs.2.1, cs.2.2.1, cs.2.2.2), true)
  else
    let p1 := ins cs.2.1 obj
    if p1.2 then ((p0.1, p1.1, cs.2.2.1, cs.2.2.2), true)
    else
      let p2 := ins cs.2.2.1 obj
      if p2.2 then ((p0.1, p1.1, p2.1, cs.2.2.2), true)
      else
        let p3 := ins cs.2.2.2 obj
        ((p0.1, p1.1, p2.1, p3.1), p3.2)

/-- The redistribution loop of `QT_Subdivide`: each buffered object is offered
to the four children in slot order (result flag discarded, as in C). -/
def redistribute (ins : QuadTree → QT_Object → QuadTree × Bool)
    (cs : QuadTree × QuadTree × QuadTree × QuadTree) (objs : List QT_Object) :
    QuadTree × QuadTree × QuadTree × QuadTree :=
  objs.foldl (fun acc o => (tryInsert4 ins acc o).1) cs

/-- Body of `QT_Subdivide`, parameterized by the insertion function used for
redistribution: creates the four children (`QT_New` with the parent's capacity,
then depth set to parent depth + 1), pushes the buffered objects down, then
clears `obj_count` and frees the buffer. -/
def subdivideBody (ins : QuadTree → QT_Object → QuadTree × Bool) (qt : QuadTree) :
    QuadTree :=
  match qt with
  | .mk b objects capacity depth _ =>
    let c0 : QuadTree := .mk (childBoundary b 0) (some []) capacity (depth + 1) none
    let c1 : QuadTree := .mk (childBoundary b 1) (some []) capacity (depth + 1) none
    let c2 : QuadTree := .mk (childBoundary b 2) (some []) capacity (depth + 1) none
    let c3 : QuadTree := .mk (childBoundary b 3) (some []) capacity (depth + 1) none
    let cs := redistribute ins (c0, c1, c2, c3) (objects.getD [])
    .mk b none capacity depth (some cs)

/-- The child-insertion loop of `QT_Insert` after a subdivision, including the
fall-through to the grow-and-append branch when no child accepted. -/
def insertChildren (ins : QuadTree → QT_Object → QuadTree × Bool) (qt1 : QuadTree)
    (obj : QT_Object) : QuadTree × Bool :=
  match qt1 with
  | .mk b o c d none => (QT_grow (.mk b o c d none) obj, true)
  | .mk b o c d (some cs) =>
    let r := tryInsert4 ins cs obj
    if r.2 then (.mk b o c d (some r.1), true)
    else (QT_grow (.mk b o c d (some r.1)) obj, true)

/-- Body of `QT_Insert`, parameterized by the subdivision function and the
insertion function used on the children. -/
def insertBody (sub : QuadTree → QuadTree) (ins : QuadTree → QT_Object → QuadTree × Bool)
    (qt : QuadTree) (obj : QT_Object) : QuadTree × Bool :=
  if BoundaryContains qt.boundary obj.pos = false then (qt, false)
  else if QT_obj_count qt < qt.capacity ∧ qt.objects ≠ none then (QT_append qt obj, true)
  else if QT_IsLeaf qt = true ∧ qt.depth ≤ QT_MAX_DEPTH then insertChildren ins (sub qt) obj
  else (QT_grow qt obj, true)

/-- Fuel-indexed pair (insert, subdivide).  At fuel `f + 1`, insertion
subdivides and recurses into children with fuel `f`; a fuel of
`QT_MAX_DEPTH + 2` is sufficient for every tree rooted at depth 1 because the
C recursion descends one depth level per call and never subdivides past
`QT_MAX_DEPTH`. -/
def QT_F : ℕ → ((QuadTree → QT_Object → QuadTree × Bool) × (QuadTree → QuadTree))
  | 0 => (fun qt _ => (qt, false), fun qt => qt)
  | f + 1 =>
    (insertBody (subdivideBody (QT_F f).1) (QT_F f).1,
     subdivideBody (QT_F f).1)

/-- `QT_Insert` with the fuel bound sufficient for roots of depth 1. -/
def QT_Insert (qt : QuadTree) (obj : QT_Object) : QuadTree × Bool :=
  (QT_F (QT_MAX_DEPTH + 2)).1 qt obj

/-- `QT_Subdivide` with the fuel bound sufficient for roots of depth 1. -/
def QT_Subdivide (qt : QuadTree) : QuadTree :=
  (QT_F (QT_MAX_DEPTH + 2)).2 qt

/-- `QT_Query`: prune when the node boundary misses the region, collect the
node's own buffered objects contained in the region (in buffer order, the
order they are appended to `resultArray`), then recurse into the children when
the node is internal. -/
def QT_Query : QuadTree → Boundary → List QT_Object × Bool
  | .mk b objects _ _ branches, query =>
    if BoundaryIntersects b query = false then ([], false)
    else
      let hits := (objects.getD []).filter (fun o => BoundaryContains query o.pos)
      match branches with
      | none => (hits, true)
      | some (c0, c1, c2, c3) =>
        (hits ++ (QT_Query c0 query).1 ++ (QT_Query c1 query).1 ++
            (QT_Query c2 query).1 ++ (QT_Query c3 query).1, true)

/-- All objects stored anywhere in the tree, in query traversal order. -/
def QT_allObjects : QuadTree → List QT_Object
  | .mk _ objects _ _ none => objects.getD []
  | .mk _ objects _ _ (some (c0, c1, c2, c3)) =>
    objects.getD [] ++ QT_allObjects c0 ++ QT_allObjects c1 ++
      QT_allObjects c2 ++ QT_allObjects c3

/-- Largest `depth` field appearing in the tree. -/
def QT_maxDepth : QuadTree → ℕ
  | .mk _ _ _ d none => d
  | .mk _ _ _ d (some (c0, c1, c2, c3)) =>
    max (max (max (max d (QT_maxDepth c0)) (QT_maxDepth c1)) (QT_maxDepth c2))
      (QT_maxDepth c3)

/-- Every node of the tree satisfies `obj_count ≤ capacity`. -/
def QT_countOK : QuadTree → Prop
  | .mk _ objects capacity _ none => (objects.getD []).length ≤ capacity
  | .mk _ objects capacity _ (some (c0, c1, c2, c3)) =>
    (objects.getD []).length ≤ capacity ∧ QT_countOK c0 ∧ QT_countOK c1 ∧
      QT_countOK c2 ∧ QT_countOK c3

/-- Building a tree: fold a sequence of insertions into a fresh root. -/
def QT_Build (b : Boundary) (capacity : ℕ) (objs : List QT_Object) : QuadTree :=
  objs.foldl (fun t o => (QT_Insert t o).1) (QT_New b capacity)

/-- A fresh child node as produced by `QT_Subdivide` (boundary of quadrant `i`,
the parent's capacity, parent depth + 1) that currently buffers `m`. -/
def childNode (b : Boundary) (cap dd : ℕ) (i : ℕ) (m : List QT_Object) : QuadTree :=
  .mk (childBoundary b i) (some m) cap dd none

/-- The objects of `l` whose first containing quadrant of `b` is quadrant `i`. -/
def childFilter (b : Boundary) (l : List QT_Object) (i : ℕ) : List QT_Object :=
  l.filter (fun o => decide (childIdx b o.pos = some i))

/-- Rectangle `a` lies inside rectangle `bb` (componentwise interval
containment of the closed boxes). -/
def boxLE (a bb : Boundary) : Prop :=
  bb.pos.x - bb.half_dim.x ≤ a.pos.x - a.half_dim.x ∧
    a.pos.x + a.half_dim.x ≤ bb.pos.x + bb.half_dim.x ∧
    bb.pos.y - bb.half_dim.y ≤ a.pos.y - a.half_dim.y ∧
    a.pos.y + a.half_dim.y ≤ bb.pos.y + bb.half_dim.y

/-- Invariant of every tree reachable from a fresh root by `QT_Insert`:
positive capacity, nonnegative half extents, every buffered object inside the
node's boundary, `obj_count ≤ capacity`, leaves own a buffer, and the four
children of an internal node carry the quadrant boundaries at depth + 1 (a
node subdivides only while its depth is at most `QT_MAX_DEPTH`).
An internal node may buffer objects: `QT_Insert` stores objects in an
already-subdivided node (see the claims about internal buffers). -/
inductive Inv : QuadTree → Prop where
  | leaf (b : Boundary) (l : List QT_Object) (cap d : ℕ)
      (hcap : 1 ≤ cap) (hx : 0 ≤ b.half_dim.x) (hy : 0 ≤ b.half_dim.y)
      (hobj : ∀ o ∈ l, BoundaryContains b o.pos = true)
      (hlen : l.length ≤ cap) :
      Inv (.mk b (some l) cap d none)
  | node (b : Boundary) (objects : Option (List QT_Object)) (cap d : ℕ)
      (c0 c1 c2 c3 : QuadTree)
      (hcap : 1 ≤ cap) (hx : 0 ≤ b.half_dim.x) (hy : 0 ≤ b.half_dim.y)
      (hobj : ∀ o ∈ objects.getD [], BoundaryContains b o.pos = true)
      (hlen : (objects.getD []).length ≤ cap)
      (hd : d ≤ QT_MAX_DEPTH)
      (hb0 : c0.boundary = childBoundary b 0) (hb1 : c1.boundary = childBoundary b 1)
      (hb2 : c2.boundary = childBoundary b 2) (hb3 : c3.boundary = childBoundary b 3)
      (hd0 : c0.depth = d + 1) (hd1 : c1.depth = d + 1)
      (hd2 : c2.depth = d + 1) (hd3 : c3.depth = d + 1)
      (hi0 : Inv c0) (hi1 : Inv c1) (hi2 : Inv c2) (hi3 : Inv c3) :
      Inv (.mk b objects cap d (some (c0, c1, c2, c3)))

/-! Basic reduction lemmas for the record accessors. -/

@[simp] theorem boundary_mk {b : Boundary} {o : Option (List QT_Object)} {c d : ℕ}
    {br : Option (QuadTree × QuadTree × QuadTree × QuadTree)} :
    (QuadTree.mk b o c d br).boundary = b := rfl

@[simp] theorem objects_mk {b : Boundary} {o : Option (List QT_Object)} {c d : ℕ}
    {br : Option (QuadTree × QuadTree × QuadTree × QuadTree)} :
    (QuadTree.mk b o c d br).objects = o := rfl

@[simp] theorem capacity_mk {b : Boundary} {o : Option (List QT_Object)} {c d : ℕ}
    {br : Option (QuadTree × QuadTree × QuadTree × QuadTree)} :
    (QuadTree.mk b o c d br).capacity = c := rfl

@[simp] theorem depth_mk {b : Boundary} {o : Option (List QT_Object)} {c d : ℕ}
    {br : Option (QuadTree × QuadTree × QuadTree × QuadTree)} :
    (QuadTree.mk b o c d br).depth = d := rfl

@[simp] theorem branches_mk {b : Boundary} {o : Option (List QT_Object)} {c d : ℕ}
    {br : Option (QuadTree × QuadTree × QuadTree × QuadTree)} :
    (QuadTree.mk b o c d br).branches = br := rfl

@[simp] theorem objList_mk {b : Boundary} {o : Option (List QT_Object)} {c d : ℕ}
    {br : Option (QuadTree × QuadTree × QuadTree × QuadTree)} :
    objList (QuadTree.mk b o c d br) = o.getD [] := rfl

theorem QT_F_succ (f : ℕ) :
    QT_F (f + 1) =
      (insertBody (subdivideBody (QT_F f).1) (QT_F f).1, subdivideBody (QT_F f).1) := rfl

theorem QT_F_succ_fst (f : ℕ) :
    (QT_F (f + 1)).1 = insertBody (subdivideBody (QT_F f).1) (QT_F f).1 := rfl

theorem QT_F_succ_snd (f : ℕ) :
    (QT_F (f + 1)).2 = subdivideBody (QT_F f).1 := rfl

/-! Geometry lemmas about `BoundaryContains`, `BoundaryIntersects` and the
quadrant decomposition. -/

theorem contains_iff (b : Boundary) (p : Vec2) :
    BoundaryContains b p = true ↔
      b.pos.x - b.half_dim.x ≤ p.x ∧ p.x ≤ b.pos.x + b.half_dim.x ∧
        b.pos.y - b.half_dim.y ≤ p.y ∧ p.y ≤ b.pos.y + b.half_dim.y := by
  simp [BoundaryContains, and_assoc]

theorem contains_halfdim_nonneg {b : Boundary} {p : Vec2}
    (h : BoundaryContains b p = true) : 0 ≤ b.half_dim.x ∧ 0 ≤ b.half_dim.y := by
  rw [contains_iff] at h
  constructor <;> linarith [h.1, h.2.1, h.2.2.1, h.2.2.2]

theorem intersects_comm (a b : Boundary) :
    BoundaryIntersects a b = BoundaryIntersects b a := by
  rw [BoundaryIntersects, BoundaryIntersects, abs_sub_comm a.pos.x,
    abs_sub_comm a.pos.y, add_comm a.half_dim.x, add_comm a.half_dim.y]

theorem intersects_false_iff (a b : Boundary) :
    BoundaryIntersects a b = false ↔
      a.half_dim.x + b.half_dim.x < |a.pos.x - b.pos.x| ∨
        a.half_dim.y + b.half_dim.y < |a.pos.y - b.pos.y| := by
  rw [BoundaryIntersects]
  split_ifs with h1 h2 <;> simp_all

theorem childBoundary_zero (b : Boundary) :
    childBoundary b 0 =
      ⟨⟨b.pos.x - b.half_dim.x / 2, b.pos.y - b.half_dim.y / 2⟩,
        ⟨b.half_dim.x / 2, b.half_dim.y / 2⟩⟩ := rfl

theorem childBoundary_one (b : Boundary) :
    childBoundary b 1 =
      ⟨⟨b.pos.x - b.half_dim.x / 2, b.pos.y + b.half_dim.y / 2⟩,
        ⟨b.half_dim.x / 2, b.half_dim.y / 2⟩⟩ := rfl

theorem childBoundary_two (b : Boundary) :
    childBoundary b 2 =
      ⟨⟨b.pos.x + b.half_dim.x / 2, b.pos.y - b.half_dim.y / 2⟩,
        ⟨b.half_dim.x / 2, b.half_dim.y / 2⟩⟩ := rfl

theorem childBoundary_three (b : Boundary) :
    childBoundary b 3 =
      ⟨⟨b.pos.x + b.half_dim.x / 2, b.pos.y + b.half_dim.y / 2⟩,
        ⟨b.half_dim.x / 2, b.half_dim.y / 2⟩⟩ := rfl

theorem exists_child_contains {b : Boundary} {p : Vec2}
    (h : BoundaryContains b p = true) :
    ∃ i < 4, BoundaryContains (childBoundary b i) p = true := by
  rw [contains_iff] at h
  obtain ⟨h1, h2, h3, h4⟩ := h
  rcases le_or_lt p.x b.pos.x with hxc | hxc <;> rcases le_or_lt p.y b.pos.y with hyc | hyc
  · exact ⟨0, by omega, by
      rw [childBoundary_zero, contains_iff]
      exact ⟨by linarith, by linarith, by linarith, by linarith⟩⟩
  · exact ⟨1, by omega, by
      rw [childBoundary_one, contains_iff]
      exact ⟨by linarith, by linarith, by linarith, by linarith⟩⟩
  · exact ⟨2, by omega, by
      rw [childBoundary_two, contains_iff]
      exact ⟨by linarith, by linarith, by linarith, by linarith⟩⟩
  · exact ⟨3, by omega, by
      rw [childBoundary_three, contains_iff]
      exact ⟨by linarith, by linarith, by linarith, by linarith⟩⟩

theorem contains_of_child_contains {b : Boundary} {p : Vec2}
    (hx : 0 ≤ b.half_dim.x) (hy : 0 ≤ b.half_dim.y) {i : ℕ} (hi : i < 4)
    (h : BoundaryContains (childBoundary b i) p = true) :
    BoundaryContains b p = true := by
  interval_cases i <;>
    [rw [childBoundary_zero, contains_iff] at h; rw [childBoundary_one, contains_iff] at h;
      rw [childBoundary_two, contains_iff] at h; rw [childBoundary_three, contains_iff] at h] <;>
    · obtain ⟨h1, h2, h3, h4⟩ := h
      rw [contains_iff]
      exact ⟨by linarith, by linarith, by linarith, by linarith⟩

theorem childIdx_some_contains {b : Boundary} {p : Vec2} {i : ℕ}
    (h : childIdx b p = some i) : BoundaryContains (childBoundary b i) p = true := by
  unfold childIdx at h
  split_ifs at h with h0 h1 h2 h3 <;> simp_all

theorem childIdx_some_lt {b : Boundary} {p : Vec2} {i : ℕ}
    (h : childIdx b p = some i) : i < 4 := by
  unfold childIdx at h
  split_ifs at h <;> simp_all <;> omega

theorem childIdx_some_first {b : Boundary} {p : Vec2} {i : ℕ}
    (h : childIdx b p = some i) :
    ∀ j, j < i → BoundaryContains (childBoundary b j) p = false := by
  unfold childIdx at h
  split_ifs at h with h0 h1 h2 h3 <;> simp_all <;> intro j hj <;> subst h <;>
    first
    | omega
    | (interval_cases j <;> simp_all)

theorem childIdx_isSome_of_contains {b : Boundary} {p : Vec2}
    (h : BoundaryContains b p = true) : ∃ i, childIdx b p = some i := by
  obtain ⟨i, hi4, hi⟩ := exists_child_contains h
  unfold childIdx
  split_ifs with h0 h1 h2 h3
  · exact ⟨0, rfl⟩
  · exact ⟨1, rfl⟩
  · exact ⟨2, rfl⟩
  · exact ⟨3, rfl⟩
  · interval_cases i <;> simp_all

theorem childIdx_none_contains_false {b : Boundary} {p : Vec2}
    (h : childIdx b p = none) (i : ℕ) (hi : i < 4) :
    BoundaryContains (childBoundary b i) p = false := by
  unfold childIdx at h
  split_ifs at h with h0 h1 h2 h3
  interval_cases i <;> simp_all

/-! Lemmas about rectangle containment (`boxLE`). -/

theorem boxLE_refl (a : Boundary) : boxLE a a :=
  ⟨le_refl _, le_refl _, le_refl _, le_refl _⟩

theorem boxLE_trans {a b c : Boundary} (hab : boxLE a b) (hbc : boxLE b c) :
    boxLE a c := by
  obtain ⟨p1, p2, p3, p4⟩ := hab
  obtain ⟨q1, q2, q3, q4⟩ := hbc
  exact ⟨by linarith, by linarith, by linarith, by linarith⟩

theorem boxLE_child {b : Boundary} (hx : 0 ≤ b.half_dim.x) (hy : 0 ≤ b.half_dim.y)
    {i : ℕ} (hi : i < 4) : boxLE (childBoundary b i) b := by
  interval_cases i <;>
    [rw [childBoundary_zero]; rw [childBoundary_one]; rw [childBoundary_two];
      rw [childBoundary_three]] <;>
    exact ⟨by simp; linarith, by simp; linarith, by simp; linarith, by simp; linarith⟩

theorem contains_mono {a bb : Boundary} (h : boxLE a bb) {p : Vec2}
    (hc : BoundaryContains a p = true) : BoundaryContains bb p = true := by
  obtain ⟨p1, p2, p3, p4⟩ := h
  rw [contains_iff] at hc
  obtain ⟨h1, h2, h3, h4⟩ := hc
  rw [contains_iff]
  exact ⟨by linarith, by linarith, by linarith, by linarith⟩

theorem intersects_of_boxLE {a bb : Boundary} (h : boxLE a bb)
    (hx : 0 ≤ a.half_dim.x) (hy : 0 ≤ a.half_dim.y) :
    BoundaryIntersects a bb = true := by
  obtain ⟨p1, p2, p3, p4⟩ := h
  rw [BoundaryIntersects, if_neg, if_neg]
  · rw [not_lt, abs_le]
    exact ⟨by linarith, by linarith⟩
  · rw [not_lt, abs_le]
    exact ⟨by linarith, by linarith⟩

/-! Reduction lemmas for the fuel-indexed insert. -/

theorem insertF_not_contains (f : ℕ) {qt : QuadTree} {obj : QT_Object}
    (h : BoundaryContains qt.boundary obj.pos = false) :
    (QT_F f).1 qt obj = (qt, false) := by
  cases f with
  | zero => rfl
  | succ g => rw [QT_F_succ]; simp [insertBody, h]

theorem insertF_append (f : ℕ) {b : Boundary} {l : List QT_Object} {cap d : ℕ}
    {br : Option (QuadTree × QuadTree × QuadTree × QuadTree)} {obj : QT_Object}
    (hcon : BoundaryContains b obj.pos = true) (hroom : l.length < cap) :
    (QT_F (f + 1)).1 (.mk b (some l) cap d br) obj =
      (.mk b (some (l ++ [obj])) cap d br, true) := by
  rw [QT_F_succ]
  simp [insertBody, hcon, QT_obj_count, objList, hroom, QT_append]

theorem insertF_true (f : ℕ) {qt : QuadTree} {obj : QT_Object}
    (h : BoundaryContains qt.boundary obj.pos = true) :
    ((QT_F (f + 1)).1 qt obj).2 = true := by
  rw [QT_F_succ]
  simp only [insertBody, h]
  rw [if_neg (by simp)]
  split_ifs with h2 h3
  · rfl
  · rcases hsub : subdivideBody (QT_F f).1 qt with ⟨b2, o2, c2, d2, br2⟩
    cases br2 with
    | none => rfl
    | some cs =>
      simp only [insertChildren]
      split_ifs <;> rfl
  · rfl

/-! Characterization of the redistribution loop of `QT_Subdivide`. -/

theorem redistribute_cons (ins : QuadTree → QT_Object → QuadTree × Bool)
    (cs : QuadTree × QuadTree × QuadTree × QuadTree) (o : QT_Object)
    (rest : List QT_Object) :
    redistribute ins cs (o :: rest) = redistribute ins (tryInsert4 ins cs o).1 rest := rfl

theorem childFilter_cons (b : Boundary) (o : QT_Object) (rest : List QT_Object) (i : ℕ) :
    childFilter b (o :: rest) i =
      if childIdx b o.pos = some i then o :: childFilter b rest i
      else childFilter b rest i := by
  simp only [childFilter, List.filter_cons]
  split_ifs with h1 h2 h3 <;> simp_all

theorem childNode_boundary (b : Boundary) (cap dd i : ℕ) (m : List QT_Object) :
    (childNode b cap dd i m).boundary = childBoundary b i := rfl

theorem redistribute_spec (g : ℕ) (b : Boundary) (cap dd : ℕ) :
    ∀ (l m0 m1 m2 m3 : List QT_Object),
      m0.length + l.length ≤ cap → m1.length + l.length ≤ cap →
      m2.length + l.length ≤ cap → m3.length + l.length ≤ cap →
      redistribute (QT_F (g + 1)).1
          (childNode b cap dd 0 m0, childNode b cap dd 1 m1,
            childNode b cap dd 2 m2, childNode b cap dd 3 m3) l =
        (childNode b cap dd 0 (m0 ++ childFilter b l 0),
          childNode b cap dd 1 (m1 ++ childFilter b l 1),
          childNode b cap dd 2 (m2 ++ childFilter b l 2),
          childNode b cap dd 3 (m3 ++ childFilter b l 3)) := by
  intro l
  induction l with
  | nil =>
    intro m0 m1 m2 m3 _ _ _ _
    simp [redistribute, childFilter]
  | cons o rest ih =>
    intro m0 m1 m2 m3 h0 h1 h2 h3
    simp only [List.length_cons] at h0 h1 h2 h3
    rw [redistribute_cons]
    by_cases hc0 : BoundaryContains (childBoundary b 0) o.pos = true
    · have hci : childIdx b o.pos = some 0 := by unfold childIdx; rw [if_pos hc0]
      have e : (tryInsert4 (QT_F (g + 1)).1
          (childNode b cap dd 0 m0, childNode b cap dd 1 m1,
            childNode b cap dd 2 m2, childNode b cap dd 3 m3) o).1 =
          (childNode b cap dd 0 (m0 ++ [o]), childNode b cap dd 1 m1,
            childNode b cap dd 2 m2, childNode b cap dd 3 m3) := by
        unfold tryInsert4
        rw [show childNode b cap dd 0 m0 = .mk (childBoundary b 0) (some m0) cap dd none
          from rfl]
        rw [insertF_append g hc0 (by omega)]
        rfl
      rw [e, ih (m0 ++ [o]) m1 m2 m3 (by simp; omega) (by omega) (by omega) (by omega)]
      rw [childFilter_cons, childFilter_cons, childFilter_cons, childFilter_cons]
      rw [if_pos hci, if_neg (by simp [hci]), if_neg (by simp [hci]), if_neg (by simp [hci])]
      simp
    · by_cases hc1 : BoundaryContains (childBoundary b 1) o.pos = true
      · have hci : childIdx b o.pos = some 1 := by
          unfold childIdx
          rw [if_neg (by simp [hc0]), if_pos hc1]
        have e : (tryInsert4 (QT_F (g + 1)).1
            (childNode b cap dd 0 m0, childNode b cap dd 1 m1,
              childNode b cap dd 2 m2, childNode b cap dd 3 m3) o).1 =
            (childNode b cap dd 0 m0, childNode b cap dd 1 (m1 ++ [o]),
              childNode b cap dd 2 m2, childNode b cap dd 3 m3) := by
          unfold tryInsert4
          rw [show childNode b cap dd 0 m0 = .mk (childBoundary b 0) (some m0) cap dd none
            from rfl]
          rw [insertF_not_contains (g + 1)
            (by rw [boundary_mk]; simp [hc0])]
          rw [show childNode b cap dd 1 m1 = .mk (childBoundary b 1) (some m1) cap dd none
            from rfl]
          rw [insertF_append g hc1 (by omega)]
          rfl
        rw [e, ih m0 (m1 ++ [o]) m2 m3 (by omega) (by simp; omega) (by omega) (by omega)]
        rw [childFilter_cons, childFilter_cons, childFilter_cons, childFilter_cons]
        rw [if_neg (by simp [hci]), if_pos hci, if_neg (by simp [hci]), if_neg (by simp [hci])]
        simp
      · by_cases hc2 : BoundaryContains (childBoundary b 2) o.pos = true
        · have hci : childIdx b o.pos = some 2 := by
            unfold childIdx
            rw [if_neg (by simp [hc0]), if_neg (by simp [hc1]), if_pos hc2]
          have e : (tryInsert4 (QT_F (g + 1)).1
              (childNode b cap dd 0 m0, childNode b cap dd 1 m1,
                childNode b cap dd 2 m2, childNode b cap dd 3 m3) o).1 =
              (childNode b cap dd 0 m0, childNode b cap dd 1 m1,
                childNode b cap dd 2 (m2 ++ [o]), childNode b cap dd 3 m3) := by
            unfold tryInsert4
            rw [show childNode b cap dd 0 m0 = .mk (childBoundary b 0) (some m0) cap dd none
              from rfl]
            rw [insertF_not_contains (g + 1) (by rw [boundary_mk]; simp [hc0])]
            rw [show childNode b cap dd 1 m1 = .mk (childBoundary b 1) (some m1) cap dd none
              from rfl]
            rw [insertF_not_contains (g + 1) (by rw [boundary_mk]; simp [hc1])]
            rw [show childNode b cap dd 2 m2 = .mk (childBoundary b 2) (some m2) cap dd none
              from rfl]
            rw [insertF_append g hc2 (by omega)]
            rfl
          rw [e, ih m0 m1 (m2 ++ [o]) m3 (by omega) (by omega) (by simp; omega) (by omega)]
          rw [childFilter_cons, childFilter_cons, childFilter_cons, childFilter_cons]
          rw [if_neg (by simp [hci]), if_neg (by simp [hci]), if_pos hci,
            if_neg (by simp [hci])]
          simp
        · by_cases hc3 : BoundaryContains (childBoundary b 3) o.pos = true
          · have hci : childIdx b o.pos = some 3 := by
              unfold childIdx
              rw [if_neg (by simp [hc0]), if_neg (by simp [hc1]), if_neg (by simp [hc2]),
                if_pos hc3]
            have e : (tryInsert4 (QT_F (g + 1)).1
                (childNode b cap dd 0 m0, childNode b cap dd 1 m1,
                  childNode b cap dd 2 m2, childNode b cap dd 3 m3) o).1 =
                (childNode b cap dd 0 m0, childNode b cap dd 1 m1,
                  childNode b cap dd 2 m2, childNode b cap dd 3 (m3 ++ [o])) := by
              unfold tryInsert4
              rw [show childNode b cap dd 0 m0 = .mk (childBoundary b 0) (some m0) cap dd none
                from rfl]
              rw [insertF_not_contains (g + 1) (by rw [boundary_mk]; simp [hc0])]
              rw [show childNode b cap dd 1 m1 = .mk (childBoundary b 1) (some m1) cap dd none
                from rfl]
              rw [insertF_not_contains (g + 1) (by rw [boundary_mk]; simp [hc1])]
              rw [show childNode b cap dd 2 m2 = .mk (childBoundary b 2) (some m2) cap dd none
                from rfl]
              rw [insertF_not_contains (g + 1) (by rw [boundary_mk]; simp [hc2])]
              rw [show childNode b cap dd 3 m3 = .mk (childBoundary b 3) (some m3) cap dd none
                from rfl]
              rw [insertF_append g hc3 (by omega)]
              rfl
            rw [e, ih m0 m1 m2 (m3 ++ [o]) (by omega) (by omega) (by omega) (by simp; omega)]
            rw [childFilter_cons, childFilter_cons, childFilter_cons, childFilter_cons]
            rw [if_neg (by simp [hci]), if_neg (by simp [hci]), if_neg (by simp [hci]),
              if_pos hci]
            simp
          · have hci : childIdx b o.pos = none := by
              unfold childIdx
              rw [if_neg (by simp [hc0]), if_neg (by simp [hc1]), if_neg (by simp [hc2]),
                if_neg (by simp [hc3])]
            have e : (tryInsert4 (QT_F (g + 1)).1
                (childNode b cap dd 0 m0, childNode b cap dd 1 m1,
                  childNode b cap dd 2 m2, childNode b cap dd 3 m3) o).1 =
                (childNode b cap dd 0 m0, childNode b cap dd 1 m1,
                  childNode b cap dd 2 m2, childNode b cap dd 3 m3) := by
              unfold tryInsert4
              rw [show childNode b cap dd 0 m0 = .mk (childBoundary b 0) (some m0) cap dd none
                from rfl]
              rw [insertF_not_contains (g + 1) (by rw [boundary_mk]; simp [hc0])]
              rw [show childNode b cap dd 1 m1 = .mk (childBoundary b 1) (some m1) cap dd none
                from rfl]
              rw [insertF_not_contains (g + 1) (by rw [boundary_mk]; simp [hc1])]
              rw [show childNode b cap dd 2 m2 = .mk (childBoundary b 2) (some m2) cap dd none
                from rfl]
              rw [insertF_not_contains (g + 1) (by rw [boundary_mk]; simp [hc2])]
              rw [show childNode b cap dd 3 m3 = .mk (childBoundary b 3) (some m3) cap dd none
                from rfl]
              rw [insertF_not_contains (g + 1) (by rw [boundary_mk]; simp [hc3])]
              rfl
            rw [e, ih m0 m1 m2 m3 (by omega) (by omega) (by omega) (by omega)]
            rw [childFilter_cons, childFilter_cons, childFilter_cons, childFilter_cons]
            rw [if_neg (by simp [hci]), if_neg (by simp [hci]), if_neg (by simp [hci]),
              if_neg (by simp [hci])]

theorem subdivideF_spec (g : ℕ) (b : Boundary) (objects : Option (List QT_Object))
    (cap d : ℕ) (br : Option (QuadTree × QuadTree × QuadTree × QuadTree))
    (hlen : (objects.getD []).length ≤ cap) :
    (QT_F (g + 2)).2 (.mk b objects cap d br) =
      .mk b none cap d
        (some (childNode b cap (d + 1) 0 (childFilter b (objects.getD []) 0),
          childNode b cap (d + 1) 1 (childFilter b (objects.getD []) 1),
          childNode b cap (d + 1) 2 (childFilter b (objects.getD []) 2),
          childNode b cap (d + 1) 3 (childFilter b (objects.getD []) 3))) := by
  show subdivideBody (QT_F (g + 1)).1 (.mk b objects cap d br) = _
  simp only [subdivideBody]
  rw [show (QuadTree.mk (childBoundary b 0) (some []) cap (d + 1) none,
      QuadTree.mk (childBoundary b 1) (some []) cap (d + 1) none,
      QuadTree.mk (childBoundary b 2) (some []) cap (d + 1) none,
      QuadTree.mk (childBoundary b 3) (some []) cap (d + 1) none) =
    (childNode b cap (d + 1) 0 [], childNode b cap (d + 1) 1 [],
      childNode b cap (d + 1) 2 [], childNode b cap (d + 1) 3 []) from rfl]
  rw [redistribute_spec g b cap (d + 1) (objects.getD []) [] [] [] []
    (by simpa using hlen) (by simpa using hlen) (by simpa using hlen) (by simpa using hlen)]
  simp

/-! Helper lemmas about `QT_allObjects`, `childNode` and `childFilter`. -/

theorem allObjects_mk_none {b : Boundary} {o : Option (List QT_Object)} {cap d : ℕ} :
    QT_allObjects (.mk b o cap d none) = o.getD [] := by
  simp [QT_allObjects]

theorem allObjects_mk_some {b : Boundary} {o : Option (List QT_Object)} {cap d : ℕ}
    {c0 c1 c2 c3 : QuadTree} :
    QT_allObjects (.mk b o cap d (some (c0, c1, c2, c3))) =
      o.getD [] ++ QT_allObjects c0 ++ QT_allObjects c1 ++ QT_allObjects c2 ++
        QT_allObjects c3 := by
  simp [QT_allObjects]

theorem allObjects_childNode (b : Boundary) (cap dd i : ℕ) (m : List QT_Object) :
    QT_allObjects (childNode b cap dd i m) = m := by
  simp [childNode, allObjects_mk_none]

theorem childBoundary_half_nonneg {b : Boundary} (hx : 0 ≤ b.half_dim.x)
    (hy : 0 ≤ b.half_dim.y) {i : ℕ} (hi : i < 4) :
    0 ≤ (childBoundary b i).half_dim.x ∧ 0 ≤ (childBoundary b i).half_dim.y := by
  interval_cases i <;>
    [rw [childBoundary_zero]; rw [childBoundary_one]; rw [childBoundary_two];
      rw [childBoundary_three]] <;>
    exact ⟨by simp; linarith, by simp; linarith⟩

theorem mem_childFilter {b : Boundary} {l : List QT_Object} {i : ℕ} {o : QT_Object}
    (h : o ∈ childFilter b l i) : childIdx b o.pos = some i ∧ o ∈ l := by
  simp only [childFilter, List.mem_filter, decide_eq_true_eq] at h
  exact ⟨h.2, h.1⟩

theorem childFilter_length_le (b : Boundary) (l : List QT_Object) (i : ℕ) :
    (childFilter b l i).length ≤ l.length :=
  List.length_filter_le _ _

theorem childFilter_partition (b : Boundary) (l : List QT_Object)
    (h : ∀ o ∈ l, BoundaryContains b o.pos = true) :
    (↑(childFilter b l 0) + ↑(childFilter b l 1) + ↑(childFilter b l 2) +
      ↑(childFilter b l 3) : Multiset QT_Object) = ↑l := by
  induction l with
  | nil => simp [childFilter]
  | cons o rest ih =>
    have hrest : ∀ o ∈ rest, BoundaryContains b o.pos = true := fun o ho =>
      h o (List.mem_cons_of_mem _ ho)
    have ihr := ih hrest
    obtain ⟨j, hj⟩ := childIdx_isSome_of_contains (h o (List.mem_cons_self o rest))
    have hj4 := childIdx_some_lt hj
    rw [childFilter_cons, childFilter_cons, childFilter_cons, childFilter_cons]
    interval_cases j
    · rw [if_pos hj, if_neg (by simp [hj]), if_neg (by simp [hj]), if_neg (by simp [hj])]
      simp only [← Multiset.cons_coe, Multiset.cons_add]
      rw [ihr]
    · rw [if_neg (by simp [hj]), if_pos hj, if_neg (by simp [hj]), if_neg (by simp [hj])]
      simp only [← Multiset.cons_coe, Multiset.cons_add, Multiset.add_cons]
      rw [ihr]
    · rw [if_neg (by simp [hj]), if_neg (by simp [hj]), if_pos hj, if_neg (by simp [hj])]
      simp only [← Multiset.cons_coe, Multiset.cons_add, Multiset.add_cons]
      rw [ihr]
    · rw [if_neg (by simp [hj]), if_neg (by simp [hj]), if_neg (by simp [hj]), if_pos hj]
      simp only [← Multiset.cons_coe, Multiset.cons_add, Multiset.add_cons]
      rw [ihr]

theorem childNode_depth (b : Boundary) (cap dd i : ℕ) (m : List QT_Object) :
    (childNode b cap dd i m).depth = dd := rfl

theorem contains_append_singleton {b : Boundary} {l : List QT_Object} {obj : QT_Object}
    (hobj : ∀ o ∈ l, BoundaryContains b o.pos = true)
    (hcon : BoundaryContains b obj.pos = true) :
    ∀ o ∈ l ++ [obj], BoundaryContains b o.pos = true := by
  intro o ho
  rcases List.mem_append.mp ho with hm | hm
  · exact hobj o hm
  · rw [List.mem_singleton.mp hm]
    exact hcon

theorem inv_childNode {b : Boundary} {cap : ℕ} (dd : ℕ) {l : List QT_Object} (i : ℕ)
    (hi : i < 4) (hcap : 1 ≤ cap) (hx : 0 ≤ b.half_dim.x) (hy : 0 ≤ b.half_dim.y)
    (hlen : l.length ≤ cap) :
    Inv (childNode b cap dd i (childFilter b l i)) :=
  Inv.leaf _ _ _ _ hcap (childBoundary_half_nonneg hx hy hi).1
    (childBoundary_half_nonneg hx hy hi).2
    (fun _ ho => childIdx_some_contains (mem_childFilter ho).1)
    (le_trans (childFilter_length_le b l i) hlen)

/-- Main specification of `QT_Insert` at sufficient fuel on trees satisfying
the reachability invariant: when the point is inside the node's boundary,
insertion succeeds, preserves the invariant, the node's boundary and depth,
and adds exactly the inserted object to the stored multiset. -/
theorem insertF_main (f : ℕ) : ∀ (qt : QuadTree) (obj : QT_Object), Inv qt → 1 ≤ f →
    QT_MAX_DEPTH + 3 ≤ f + qt.depth →
    BoundaryContains qt.boundary obj.pos = true →
    Inv ((QT_F f).1 qt obj).1 ∧
      ((QT_F f).1 qt obj).1.boundary = qt.boundary ∧
      ((QT_F f).1 qt obj).1.depth = qt.depth ∧
      (↑(QT_allObjects ((QT_F f).1 qt obj).1) : Multiset QT_Object) =
        ↑(QT_allObjects qt) + {obj} := by
  induction f with
  | zero => intro qt obj _ h1 _ _; omega
  | succ g IH =>
    intro qt obj hInv h1 hf hcon
    cases hInv with
    | leaf b l cap d hcap hx hy hobj hlen =>
      simp only [boundary_mk] at hcon
      simp only [depth_mk] at hf
      by_cases hroom : l.length < cap
      · rw [insertF_append g hcon hroom]
        refine ⟨?_, rfl, rfl, ?_⟩
        · exact Inv.leaf b (l ++ [obj]) cap d hcap hx hy
            (contains_append_singleton hobj hcon) (by simp; omega)
        · rw [allObjects_mk_none, allObjects_mk_none]
          simp only [Option.getD_some, ← Multiset.coe_add, Multiset.coe_singleton]
      · have hfull : l.length = cap := le_antisymm hlen (by omega)
        by_cases hd : d ≤ QT_MAX_DEPTH
        · -- the subdivision path
          obtain ⟨k, rfl⟩ : ∃ k, g = k + 1 := ⟨g - 1, by omega⟩
          rw [QT_F_succ_fst]
          simp only [insertBody]
          rw [if_neg (by simp [hcon])]
          rw [if_neg (by
            rintro ⟨hlt, -⟩
            simp only [QT_obj_count, objList, objects_mk, Option.getD_some,
              capacity_mk] at hlt
            exact hroom hlt)]
          rw [if_pos (show QT_IsLeaf (QuadTree.mk b (some l) cap d none) = true ∧
            (QuadTree.mk b (some l) cap d none).depth ≤ QT_MAX_DEPTH from ⟨rfl, hd⟩)]
          have hsub := subdivideF_spec k b (some l) cap d none (by simpa using hlen)
          rw [show subdivideBody (QT_F (k + 1)).1 = (QT_F (k + 2)).2 from rfl, hsub]
          simp only [Option.getD_some]
          obtain ⟨j, hj⟩ := childIdx_isSome_of_contains hcon
          have hj4 := childIdx_some_lt hj
          have hpart := childFilter_partition b l hobj
          interval_cases j
          · -- the object goes to child 0
            have hcj : BoundaryContains (childBoundary b 0) obj.pos = true :=
              childIdx_some_contains hj
            obtain ⟨hI1, hI2, hI3, hI4⟩ :=
              IH (childNode b cap (d + 1) 0 (childFilter b l 0)) obj
                (inv_childNode (d + 1) 0 (by omega) hcap hx hy (le_of_eq hfull))
                (by omega) (by rw [childNode_depth]; omega)
                (by rw [childNode_boundary]; exact hcj)
            have htrue : ((QT_F (k + 1)).1
                (childNode b cap (d + 1) 0 (childFilter b l 0)) obj).2 = true :=
              insertF_true k (by rw [childNode_boundary]; exact hcj)
            have e : tryInsert4 (QT_F (k + 1)).1
                (childNode b cap (d + 1) 0 (childFilter b l 0),
                  childNode b cap (d + 1) 1 (childFilter b l 1),
                  childNode b cap (d + 1) 2 (childFilter b l 2),
                  childNode b cap (d + 1) 3 (childFilter b l 3)) obj =
                ((((QT_F (k + 1)).1 (childNode b cap (d + 1) 0 (childFilter b l 0)) obj).1,
                  childNode b cap (d + 1) 1 (childFilter b l 1),
                  childNode b cap (d + 1) 2 (childFilter b l 2),
                  childNode b cap (d + 1) 3 (childFilter b l 3)), true) := by
              simp only [tryInsert4]
              rw [if_pos htrue]
            simp only [insertChildren, e, if_pos]
            refine ⟨?_, rfl, rfl, ?_⟩
            · refine Inv.node b none cap d _ _ _ _ hcap hx hy (by simp) (by simp) hd
                (hI2.trans (childNode_boundary b cap (d + 1) 0 _))
                (childNode_boundary b cap (d + 1) 1 _)
                (childNode_boundary b cap (d + 1) 2 _)
                (childNode_boundary b cap (d + 1) 3 _)
                (hI3.trans (childNode_depth b cap (d + 1) 0 _))
                (childNode_depth b cap (d + 1) 1 _)
                (childNode_depth b cap (d + 1) 2 _)
                (childNode_depth b cap (d + 1) 3 _)
                hI1 ?_ ?_ ?_
              · exact inv_childNode (d + 1) 1 (by omega) hcap hx hy (le_of_eq hfull)
              · exact inv_childNode (d + 1) 2 (by omega) hcap hx hy (le_of_eq hfull)
              · exact inv_childNode (d + 1) 3 (by omega) hcap hx hy (le_of_eq hfull)
            · rw [allObjects_mk_some, allObjects_mk_none]
              rw [allObjects_childNode] at hI4
              simp only [Option.getD_none, Option.getD_some, List.nil_append,
                allObjects_childNode, ← Multiset.coe_add]
              rw [hI4, ← hpart]
              abel
          · -- the object goes to child 1
            have hcj : BoundaryContains (childBoundary b 1) obj.pos = true :=
              childIdx_some_contains hj
            have hn0 : BoundaryContains (childBoundary b 0) obj.pos = false :=
              childIdx_some_first hj 0 (by omega)
            obtain ⟨hI1, hI2, hI3, hI4⟩ :=
              IH (childNode b cap (d + 1) 1 (childFilter b l 1)) obj
                (inv_childNode (d + 1) 1 (by omega) hcap hx hy (le_of_eq hfull))
                (by omega) (by rw [childNode_depth]; omega)
                (by rw [childNode_boundary]; exact hcj)
            have htrue : ((QT_F (k + 1)).1
                (childNode b cap (d + 1) 1 (childFilter b l 1)) obj).2 = true :=
              insertF_true k (by rw [childNode_boundary]; exact hcj)
            have e : tryInsert4 (QT_F (k + 1)).1
                (childNode b cap (d + 1) 0 (childFilter b l 0),
                  childNode b cap (d + 1) 1 (childFilter b l 1),
                  childNode b cap (d + 1) 2 (childFilter b l 2),
                  childNode b cap (d + 1) 3 (childFilter b l 3)) obj =
                ((childNode b cap (d + 1) 0 (childFilter b l 0),
                  ((QT_F (k + 1)).1 (childNode b cap (d + 1) 1 (childFilter b l 1)) obj).1,
                  childNode b cap (d + 1) 2 (childFilter b l 2),
                  childNode b cap (d + 1) 3 (childFilter b l 3)), true) := by
              simp only [tryInsert4]
              rw [show childNode b cap (d + 1) 0 (childFilter b l 0) =
                .mk (childBoundary b 0) (some (childFilter b l 0)) cap (d + 1) none from rfl]
              rw [insertF_not_contains (k + 1) (by rw [boundary_mk]; simp [hn0])]
              rw [if_neg (by simp), if_pos htrue]
            simp only [insertChildren, e, if_pos]
            refine ⟨?_, rfl, rfl, ?_⟩
            · refine Inv.node b none cap d _ _ _ _ hcap hx hy (by simp) (by simp) hd
                (childNode_boundary b cap (d + 1) 0 _)
                (hI2.trans (childNode_boundary b cap (d + 1) 1 _))
                (childNode_boundary b cap (d + 1) 2 _)
                (childNode_boundary b cap (d + 1) 3 _)
                (childNode_depth b cap (d + 1) 0 _)
                (hI3.trans (childNode_depth b cap (d + 1) 1 _))
                (childNode_depth b cap (d + 1) 2 _)
                (childNode_depth b cap (d + 1) 3 _)
                ?_ hI1 ?_ ?_
              · exact inv_childNode (d + 1) 0 (by omega) hcap hx hy (le_of_eq hfull)
              · exact inv_childNode (d + 1) 2 (by omega) hcap hx hy (le_of_eq hfull)
              · exact inv_childNode (d + 1) 3 (by omega) hcap hx hy (le_of_eq hfull)
            · rw [allObjects_mk_some, allObjects_mk_none]
              rw [allObjects_childNode] at hI4
              simp only [Option.getD_none, Option.getD_some, List.nil_append,
                allObjects_childNode, ← Multiset.coe_add]
              rw [hI4, ← hpart]
              abel
          · -- the object goes to child 2
            have hcj : BoundaryContains (childBoundary b 2) obj.pos = true :=
              childIdx_some_contains hj
            have hn0 : BoundaryContains (childBoundary b 0) obj.pos = false :=
              childIdx_some_first hj 0 (by omega)
            have hn1 : BoundaryContains (childBoundary b 1) obj.pos = false :=
              childIdx_some_first hj 1 (by omega)
            obtain ⟨hI1, hI2, hI3, hI4⟩ :=
              IH (childNode b cap (d + 1) 2 (childFilter b l 2)) obj
                (inv_childNode (d + 1) 2 (by omega) hcap hx hy (le_of_eq hfull))
                (by omega) (by rw [childNode_depth]; omega)
                (by rw [childNode_boundary]; exact hcj)
            have htrue : ((QT_F (k + 1)).1
                (childNode b cap (d + 1) 2 (childFilter b l 2)) obj).2 = true :=
              insertF_true k (by rw [childNode_boundary]; exact hcj)
            have e : tryInsert4 (QT_F (k + 1)).1
                (childNode b cap (d + 1) 0 (childFilter b l 0),
                  childNode b cap (d + 1) 1 (childFilter b l 1),
                  childNode b cap (d + 1) 2 (childFilter b l 2),
                  childNode b cap (d + 1) 3 (childFilter b l 3)) obj =
                ((childNode b cap (d + 1) 0 (childFilter b l 0),
                  childNode b cap (d + 1) 1 (childFilter b l 1),
                  ((QT_F (k + 1)).1 (childNode b cap (d + 1) 2 (childFilter b l 2)) obj).1,
                  childNode b cap (d + 1) 3 (childFilter b l 3)), true) := by
              simp only [tryInsert4]
              rw [show childNode b cap (d + 1) 0 (childFilter b l 0) =
                .mk (childBoundary b 0) (some (childFilter b l 0)) cap (d + 1) none from rfl]
              rw [insertF_not_contains (k + 1) (by rw [boundary_mk]; simp [hn0])]
              rw [show childNode b cap (d + 1) 1 (childFilter b l 1) =
                .mk (childBoundary b 1) (some (childFilter b l 1)) cap (d + 1) none from rfl]
              rw [insertF_not_contains (k + 1) (by rw [boundary_mk]; simp [hn1])]
              rw [if_neg (by simp), if_neg (by simp), if_pos htrue]
            simp only [insertChildren, e, if_pos]
            refine ⟨?_, rfl, rfl, ?_⟩
            · refine Inv.node b none cap d _ _ _ _ hcap hx hy (by simp) (by simp) hd
                (childNode_boundary b cap (d + 1) 0 _)
                (childNode_boundary b cap (d + 1) 1 _)
                (hI2.trans (childNode_boundary b cap (d + 1) 2 _))
                (childNode_boundary b cap (d + 1) 3 _)
                (childNode_depth b cap (d + 1) 0 _)
                (childNode_depth b cap (d + 1) 1 _)
                (hI3.trans (childNode_depth b cap (d + 1) 2 _))
                (childNode_depth b cap (d + 1) 3 _)
                ?_ ?_ hI1 ?_
              · exact inv_childNode (d + 1) 0 (by omega) hcap hx hy (le_of_eq hfull)
              · exact inv_childNode (d + 1) 1 (by omega) hcap hx hy (le_of_eq hfull)
              · exact inv_childNode (d + 1) 3 (by omega) hcap hx hy (le_of_eq hfull)
            · rw [allObjects_mk_some, allObjects_mk_none]
              rw [allObjects_childNode] at hI4
              simp only [Option.getD_none, Option.getD_some, List.nil_append,
                allObjects_childNode, ← Multiset.coe_add]
              rw [hI4, ← hpart]
              abel
          · -- the object goes to child 3
            have hcj : BoundaryContains (childBoundary b 3) obj.pos = true :=
              childIdx_some_contains hj
            have hn0 : BoundaryContains (childBoundary b 0) obj.pos = false :=
              childIdx_some_first hj 0 (by omega)
            have hn1 : BoundaryContains (childBoundary b 1) obj.pos = false :=
              childIdx_some_first hj 1 (by omega)
            have hn2 : BoundaryContains (childBoundary b 2) obj.pos = false :=
              childIdx_some_first hj 2 (by omega)
            obtain ⟨hI1, hI2, hI3, hI4⟩ :=
              IH (childNode b cap (d + 1) 3 (childFilter b l 3)) obj
                (inv_childNode (d + 1) 3 (by omega) hcap hx hy (le_of_eq hfull))
                (by omega) (by rw [childNode_depth]; omega)
                (by rw [childNode_boundary]; exact hcj)
            have htrue : ((QT_F (k + 1)).1
                (childNode b cap (d + 1) 3 (childFilter b l 3)) obj).2 = true :=
              insertF_true k (by rw [childNode_boundary]; exact hcj)
            have e : tryInsert4 (QT_F (k + 1)).1
                (childNode b cap (d + 1) 0 (childFilter b l 0),
                  childNode b cap (d + 1) 1 (childFilter b l 1),
                  childNode b cap (d + 1) 2 (childFilter b l 2),
                  childNode b cap (d + 1) 3 (childFilter b l 3)) obj =
                ((childNode b cap (d + 1) 0 (childFilter b l 0),
                  childNode b cap (d + 1) 1 (childFilter b l 1),
                  childNode b cap (d + 1) 2 (childFilter b l 2),
                  ((QT_F (k + 1)).1 (childNode b cap (d + 1) 3 (childFilter b l 3)) obj).1),
                  ((QT_F (k + 1)).1 (childNode b cap (d + 1) 3 (childFilter b l 3)) obj).2) := by
              simp only [tryInsert4]
              rw [show childNode b cap (d + 1) 0 (childFilter b l 0) =
                .mk (childBoundary b 0) (some (childFilter b l 0)) cap (d + 1) none from rfl]
              rw [insertF_not_contains (k + 1) (by rw [boundary_mk]; simp [hn0])]
              rw [show childNode b cap (d + 1) 1 (childFilter b l 1) =
                .mk (childBoundary b 1) (some (childFilter b l 1)) cap (d + 1) none from rfl]
              rw [insertF_not_contains (k + 1) (by rw [boundary_mk]; simp [hn1])]
              rw [show childNode b cap (d + 1) 2 (childFilter b l 2) =
                .mk (childBoundary b 2) (some (childFilter b l 2)) cap (d + 1) none from rfl]
              rw [insertF_not_contains (k + 1) (by rw [boundary_mk]; simp [hn2])]
              rw [if_neg (by simp), if_neg (by simp), if_neg (by simp)]
            simp only [insertChildren, e, htrue, if_pos]
            refine ⟨?_, rfl, rfl, ?_⟩
            · refine Inv.node b none cap d _ _ _ _ hcap hx hy (by simp) (by simp) hd
                (childNode_boundary b cap (d + 1) 0 _)
                (childNode_boundary b cap (d + 1) 1 _)
                (childNode_boundary b cap (d + 1) 2 _)
                (hI2.trans (childNode_boundary b cap (d + 1) 3 _))
                (childNode_depth b cap (d + 1) 0 _)
                (childNode_depth b cap (d + 1) 1 _)
                (childNode_depth b cap (d + 1) 2 _)
                (hI3.trans (childNode_depth b cap (d + 1) 3 _))
                ?_ ?_ ?_ hI1
              · exact inv_childNode (d + 1) 0 (by omega) hcap hx hy (le_of_eq hfull)
              · exact inv_childNode (d + 1) 1 (by omega) hcap hx hy (le_of_eq hfull)
              · exact inv_childNode (d + 1) 2 (by omega) hcap hx hy (le_of_eq hfull)
            · rw [allObjects_mk_some, allObjects_mk_none]
              rw [allObjects_childNode] at hI4
              simp only [Option.getD_none, Option.getD_some, List.nil_append,
                allObjects_childNode, ← Multiset.coe_add]
              rw [hI4, ← hpart]
              abel
        · -- full leaf beyond the maximum depth: grow and append
          rw [QT_F_succ_fst]
          simp only [insertBody]
          rw [if_neg (by simp [hcon])]
          rw [if_neg (by
            rintro ⟨hlt, -⟩
            simp only [QT_obj_count, objList, objects_mk, Option.getD_some,
              capacity_mk] at hlt
            exact hroom hlt)]
          rw [if_neg (by rintro ⟨-, hdd⟩; exact hd hdd)]
          simp only [QT_grow, boundary_mk, objList_mk, capacity_mk, depth_mk,
            branches_mk, Option.getD_some]
          refine ⟨?_, trivial, trivial, ?_⟩
          · exact Inv.leaf b (l ++ [obj]) (cap * 2) d (by omega) hx hy
              (contains_append_singleton hobj hcon) (by simp; omega)
          · rw [allObjects_mk_none, allObjects_mk_none]
            simp only [Option.getD_some, ← Multiset.coe_add, Multiset.coe_singleton]
    | node b objects cap d c0 c1 c2 c3 hcap hx hy hobj hlen hd hb0 hb1 hb2 hb3 hd0 hd1
        hd2 hd3 hi0 hi1 hi2 hi3 =>
      simp only [boundary_mk] at hcon
      rw [QT_F_succ_fst]
      simp only [insertBody]
      rw [if_neg (by simp [hcon])]
      by_cases hc2 : QT_obj_count (QuadTree.mk b objects cap d (some (c0, c1, c2, c3))) <
          (QuadTree.mk b objects cap d (some (c0, c1, c2, c3))).capacity ∧
          (QuadTree.mk b objects cap d (some (c0, c1, c2, c3))).objects ≠ none
      · -- append into the (internal) node's buffer
        rw [if_pos hc2]
        simp only [QT_append, boundary_mk, objList_mk, capacity_mk, depth_mk,
          branches_mk]
        refine ⟨?_, trivial, trivial, ?_⟩
        · refine Inv.node b (some (objects.getD [] ++ [obj])) cap d c0 c1 c2 c3 hcap hx hy
            ?_ ?_ hd hb0 hb1 hb2 hb3 hd0 hd1 hd2 hd3 hi0 hi1 hi2 hi3
          · simpa using contains_append_singleton hobj hcon
          · simp only [QT_obj_count, objList, objects_mk, Option.getD_some,
              capacity_mk] at hc2 ⊢
            have := hc2.1
            simp only [Option.getD_some, List.length_append, List.length_singleton]
            omega
        · rw [allObjects_mk_some, allObjects_mk_some]
          simp only [Option.getD_some, ← Multiset.coe_add, Multiset.coe_singleton]
          abel
      · -- internal node, no usable buffer slot: the grow-and-append branch
        rw [if_neg hc2]
        rw [if_neg (by
          rintro ⟨hleaf, -⟩
          simp only [QT_IsLeaf, branches_mk, Option.isNone_some] at hleaf
          exact Bool.false_ne_true hleaf)]
        simp only [QT_grow, boundary_mk, objList_mk, capacity_mk, depth_mk, branches_mk]
        refine ⟨?_, trivial, trivial, ?_⟩
        · refine Inv.node b (some (objects.getD [] ++ [obj])) (cap * 2) d c0 c1 c2 c3
            (by omega) hx hy ?_ ?_ hd hb0 hb1 hb2 hb3 hd0 hd1 hd2 hd3 hi0 hi1 hi2 hi3
          · simpa using contains_append_singleton hobj hcon
          · simp only [Option.getD_some, List.length_append, List.length_singleton]
            omega
        · rw [allObjects_mk_some, allObjects_mk_some]
          simp only [Option.getD_some, ← Multiset.coe_add, Multiset.coe_singleton]
          abel

theorem QT_Insert_eq (qt : QuadTree) (obj : QT_Object) :
    QT_Insert qt obj = (QT_F (QT_MAX_DEPTH + 2)).1 qt obj := rfl

/-- A query whose region covers the node's whole boundary returns every stored
object, in traversal order. -/
theorem query_covered : ∀ (t : QuadTree), Inv t → ∀ (R : Boundary),
    boxLE t.boundary R → QT_Query t R = (QT_allObjects t, true) := by
  intro t hInv
  induction hInv with
  | leaf b l cap d hcap hx hy hobj hlen =>
    intro R hsub
    rw [boundary_mk] at hsub
    have hint : BoundaryIntersects b R = true := intersects_of_boxLE hsub hx hy
    simp only [QT_Query]
    rw [if_neg (by simp [hint])]
    rw [allObjects_mk_none]
    simp only [Option.getD_some]
    rw [List.filter_eq_self.mpr (fun o ho => contains_mono hsub (hobj o ho))]
  | node b objects cap d c0 c1 c2 c3 hcap hx hy hobj hlen hd hb0 hb1 hb2 hb3 hd0 hd1
      hd2 hd3 hi0 hi1 hi2 hi3 ih0 ih1 ih2 ih3 =>
    intro R hsub
    rw [boundary_mk] at hsub
    have hint : BoundaryIntersects b R = true := intersects_of_boxLE hsub hx hy
    have hch : ∀ i : ℕ, i < 4 → boxLE (childBoundary b i) R := fun i hi =>
      boxLE_trans (boxLE_child hx hy hi) hsub
    simp only [QT_Query]
    rw [if_neg (by simp [hint])]
    rw [ih0 R (by rw [hb0]; exact hch 0 (by omega)),
      ih1 R (by rw [hb1]; exact hch 1 (by omega)),
      ih2 R (by rw [hb2]; exact hch 2 (by omega)),
      ih3 R (by rw [hb3]; exact hch 3 (by omega))]
    rw [allObjects_mk_some]
    rw [List.filter_eq_self.mpr (fun o ho => contains_mono hsub (hobj o ho))]

/-- Every node of an invariant tree satisfies `obj_count ≤ capacity`. -/
theorem countOK_of_inv : ∀ (t : QuadTree), Inv t → QT_countOK t := by
  intro t hInv
  induction hInv with
  | leaf b l cap d hcap hx hy hobj hlen => simpa [QT_countOK] using hlen
  | node b objects cap d c0 c1 c2 c3 hcap hx hy hobj hlen hd hb0 hb1 hb2 hb3 hd0 hd1
      hd2 hd3 hi0 hi1 hi2 hi3 ih0 ih1 ih2 ih3 =>
    exact ⟨hlen, ih0, ih1, ih2, ih3⟩

/-- Depth bound: in an invariant tree every node's depth is bounded by the
root's depth or `QT_MAX_DEPTH + 1` (internal nodes only exist up to the
maximum depth). -/
theorem maxDepth_le_of_inv : ∀ (t : QuadTree), Inv t →
    QT_maxDepth t ≤ max t.depth (QT_MAX_DEPTH + 1) := by
  intro t hInv
  induction hInv with
  | leaf b l cap d hcap hx hy hobj hlen => simp [QT_maxDepth]
  | node b objects cap d c0 c1 c2 c3 hcap hx hy hobj hlen hd hb0 hb1 hb2 hb3 hd0 hd1
      hd2 hd3 hi0 hi1 hi2 hi3 ih0 ih1 ih2 ih3 =>
    rw [hd0] at ih0
    rw [hd1] at ih1
    rw [hd2] at ih2
    rw [hd3] at ih3
    simp only [QT_maxDepth, depth_mk]
    omega

/-- Folding a sequence of insertions into an invariant root of depth 1
preserves the invariant, boundary and depth, and stores exactly the contained
objects (the out-of-boundary ones are rejected without changing the tree). -/
theorem foldl_insert_spec (objs : List QT_Object) : ∀ (t : QuadTree), Inv t →
    t.depth = 1 →
    Inv (objs.foldl (fun t o => (QT_Insert t o).1) t) ∧
      (objs.foldl (fun t o => (QT_Insert t o).1) t).boundary = t.boundary ∧
      (objs.foldl (fun t o => (QT_Insert t o).1) t).depth = 1 ∧
      (↑(QT_allObjects (objs.foldl (fun t o => (QT_Insert t o).1) t)) : Multiset QT_Object) =
        ↑(QT_allObjects t) +
          ↑(objs.filter (fun o => BoundaryContains t.boundary o.pos)) := by
  induction objs with
  | nil => intro t hInv hdep; exact ⟨hInv, rfl, hdep, by simp⟩
  | cons o rest ih =>
    intro t hInv hdep
    rw [List.foldl_cons]
    by_cases hcon : BoundaryContains t.boundary o.pos = true
    · obtain ⟨hI1, hI2, hI3, hI4⟩ := insertF_main (QT_MAX_DEPTH + 2) t o hInv (by omega)
        (by rw [hdep]) hcon
      rw [← QT_Insert_eq] at hI1 hI2 hI3 hI4
      obtain ⟨hR1, hR2, hR3, hR4⟩ := ih ((QT_Insert t o).1) hI1 (by rw [hI3, hdep])
      refine ⟨hR1, by rw [hR2, hI2], hR3, ?_⟩
      rw [hR4, hI2, hI4, List.filter_cons, if_pos hcon]
      rw [← Multiset.cons_coe, ← Multiset.singleton_add]
      rw [add_assoc]
    · have hstep : QT_Insert t o = (t, false) := by
        rw [QT_Insert_eq]
        exact insertF_not_contains _ (by simpa using hcon)
      simp only [hstep]
      obtain ⟨hR1, hR2, hR3, hR4⟩ := ih t hInv hdep
      refine ⟨hR1, hR2, hR3, ?_⟩
      rw [hR4, List.filter_cons, if_neg (by simp [hcon])]

/-- The invariant holds for a fresh root of positive capacity and nonnegative
half extents. -/
theorem inv_new (b : Boundary) (cap : ℕ) (hcap : 1 ≤ cap) (hx : 0 ≤ b.half_dim.x)
    (hy : 0 ≤ b.half_dim.y) : Inv (QT_New b cap) :=
  Inv.leaf b [] cap 1 hcap hx hy (by simp) (by simp)

/-- When the point lies inside the parent boundary, the child-insert loop on
four freshly built children always succeeds (the first containing quadrant
accepts). -/
theorem tryInsert4_childNodes_succeeds (k : ℕ) {b : Boundary} {cap dd : ℕ}
    (m0 m1 m2 m3 : List QT_Object) {obj : QT_Object}
    (hcon : BoundaryContains b obj.pos = true) :
    (tryInsert4 (QT_F (k + 1)).1
      (childNode b cap dd 0 m0, childNode b cap dd 1 m1,
        childNode b cap dd 2 m2, childNode b cap dd 3 m3) obj).2 = true := by
  obtain ⟨j, hj⟩ := childIdx_isSome_of_contains hcon
  have hj4 := childIdx_some_lt hj
  simp only [tryInsert4]
  interval_cases j
  · rw [if_pos (insertF_true k
      (by rw [childNode_boundary]; exact childIdx_some_contains hj))]
  · have hn0 := childIdx_some_first hj 0 (by omega)
    rw [show childNode b cap dd 0 m0 =
        .mk (childBoundary b 0) (some m0) cap dd none from rfl,
      insertF_not_contains (k + 1) (by rw [boundary_mk]; simp [hn0])]
    rw [if_neg (by simp),
      if_pos (insertF_true k
        (by rw [childNode_boundary]; exact childIdx_some_contains hj))]
  · have hn0 := childIdx_some_first hj 0 (by omega)
    have hn1 := childIdx_some_first hj 1 (by omega)
    rw [show childNode b cap dd 0 m0 =
        .mk (childBoundary b 0) (some m0) cap dd none from rfl,
      insertF_not_contains (k + 1) (by rw [boundary_mk]; simp [hn0])]
    rw [show childNode b cap dd 1 m1 =
        .mk (childBoundary b 1) (some m1) cap dd none from rfl,
      insertF_not_contains (k + 1) (by rw [boundary_mk]; simp [hn1])]
    rw [if_neg (by simp), if_neg (by simp),
      if_pos (insertF_true k
        (by rw [childNode_boundary]; exact childIdx_some_contains hj))]
  · have hn0 := childIdx_some_first hj 0 (by omega)
    have hn1 := childIdx_some_first hj 1 (by omega)
    have hn2 := childIdx_some_first hj 2 (by omega)
    rw [show childNode b cap dd 0 m0 =
        .mk (childBoundary b 0) (some m0) cap dd none from rfl,
      insertF_not_contains (k + 1) (by rw [boundary_mk]; simp [hn0])]
    rw [show childNode b cap dd 1 m1 =
        .mk (childBoundary b 1) (some m1) cap dd none from rfl,
      insertF_not_contains (k + 1) (by rw [boundary_mk]; simp [hn1])]
    rw [show childNode b cap dd 2 m2 =
        .mk (childBoundary b 2) (some m2) cap dd none from rfl,
      insertF_not_contains (k + 1) (by rw [boundary_mk]; simp [hn2])]
    rw [if_neg (by simp), if_neg (by simp), if_neg (by simp)]
    exact insertF_true k (by rw [childNode_boundary]; exact childIdx_some_contains hj)

/-- A boundary with a negative half extent contains no point at all. -/
theorem contains_false_of_neg_half {b : Boundary}
    (h : ¬0 ≤ b.half_dim.x ∨ ¬0 ≤ b.half_dim.y) (p : Vec2) :
    BoundaryContains b p = false := by
  cases hb : BoundaryContains b p with
  | false => rfl
  | true =>
    obtain ⟨h1, h2⟩ := contains_halfdim_nonneg hb
    rcases h with h | h
    · exact absurd h1 h
    · exact absurd h2 h

/-- Folding insertions of points that can never be contained leaves the tree
unchanged. -/
theorem foldl_insert_no_contains (objs : List QT_Object) : ∀ (t : QuadTree),
    (∀ p, BoundaryContains t.boundary p = false) →
    objs.foldl (fun t o => (QT_Insert t o).1) t = t := by
  induction objs with
  | nil => intro t _; rfl
  | cons o rest ih =>
    intro t h
    rw [List.foldl_cons]
    have hstep : QT_Insert t o = (t, false) := by
      rw [QT_Insert_eq]
      exact insertF_not_contains _ (h o.pos)
    simp only [hstep]
    exact ih t h

/-! The claim theorems. -/

/-- Claim C8: `BoundaryContains` returns true exactly when the point's x and y
coordinates lie in the closed intervals `center ± half_extent`; in particular a
point exactly on an edge of the boundary (where one inequality is an equality)
is contained. -/
theorem contains_iff_closed_intervals (b : Boundary) (p : Vec2) :
    BoundaryContains b p = true ↔
      b.pos.x - b.half_dim.x ≤ p.x ∧ p.x ≤ b.pos.x + b.half_dim.x ∧
        b.pos.y - b.half_dim.y ≤ p.y ∧ p.y ≤ b.pos.y + b.half_dim.y := by
  simp [BoundaryContains, and_assoc]

/-- Claim C9: `BoundaryIntersects` is symmetric, returns false exactly when the
center distance on some axis strictly exceeds the sum of the half extents on
that axis, and rectangles that merely touch (no strict excess on either axis,
including the equality case) are reported as intersecting. -/
theorem intersects_symm_and_separation (a b : Boundary) :
    BoundaryIntersects a b = BoundaryIntersects b a ∧
      (BoundaryIntersects a b = false ↔
        a.half_dim.x + b.half_dim.x < |a.pos.x - b.pos.x| ∨
          a.half_dim.y + b.half_dim.y < |a.pos.y - b.pos.y|) ∧
      (|a.pos.x - b.pos.x| ≤ a.half_dim.x + b.half_dim.x →
        |a.pos.y - b.pos.y| ≤ a.half_dim.y + b.half_dim.y →
        BoundaryIntersects a b = true) := by
  refine ⟨intersects_comm a b, intersects_false_iff a b, fun h1 h2 => ?_⟩
  rw [BoundaryIntersects, if_neg (not_lt.mpr h1), if_neg (not_lt.mpr h2)]

/-- Witness for C9 at a touching pair: two unit squares side by side share an
edge and are reported intersecting. -/
theorem intersects_symm_and_separation_witness :
    BoundaryIntersects ⟨⟨0, 0⟩, ⟨1, 1⟩⟩ ⟨⟨2, 0⟩, ⟨1, 1⟩⟩ =
        BoundaryIntersects ⟨⟨2, 0⟩, ⟨1, 1⟩⟩ ⟨⟨0, 0⟩, ⟨1, 1⟩⟩ ∧
      BoundaryIntersects ⟨⟨0, 0⟩, ⟨1, 1⟩⟩ ⟨⟨2, 0⟩, ⟨1, 1⟩⟩ = true :=
  ⟨(intersects_symm_and_separation ⟨⟨0, 0⟩, ⟨1, 1⟩⟩ ⟨⟨2, 0⟩, ⟨1, 1⟩⟩).1,
    (intersects_symm_and_separation ⟨⟨0, 0⟩, ⟨1, 1⟩⟩ ⟨⟨2, 0⟩, ⟨1, 1⟩⟩).2.2
      (by with_unfolding_all decide) (by with_unfolding_all decide)⟩

/-- Claim C6: `QT_Insert` returns false exactly when the object's position is
outside the node's boundary, and in that case the tree — and hence every later
query — is unchanged. -/
theorem insert_false_iff_outside (qt : QuadTree) (obj : QT_Object) :
    ((QT_Insert qt obj).2 = false ↔ BoundaryContains qt.boundary obj.pos = false) ∧
      ((QT_Insert qt obj).2 = false → (QT_Insert qt obj).1 = qt ∧
        ∀ R : Boundary, QT_Query (QT_Insert qt obj).1 R = QT_Query qt R) := by
  have htrue : BoundaryContains qt.boundary obj.pos = true →
      (QT_Insert qt obj).2 = true := fun h => by
    rw [QT_Insert_eq]
    exact insertF_true (QT_MAX_DEPTH + 1) h
  have hfalse : BoundaryContains qt.boundary obj.pos = false →
      QT_Insert qt obj = (qt, false) := fun h => by
    rw [QT_Insert_eq]
    exact insertF_not_contains _ h
  constructor
  · constructor
    · intro h2
      cases hcon : BoundaryContains qt.boundary obj.pos with
      | false => rfl
      | true => rw [htrue hcon] at h2; exact absurd h2 (by simp)
    · intro hcon
      rw [hfalse hcon]
  · intro h2
    have hcon : BoundaryContains qt.boundary obj.pos = false := by
      cases hcon : BoundaryContains qt.boundary obj.pos with
      | false => rfl
      | true => rw [htrue hcon] at h2; exact absurd h2 (by simp)
    rw [hfalse hcon]
    exact ⟨rfl, fun R => rfl⟩

/-- Witness for C6: the spec scenario — root half extents (100, 100), point
(500, 500) outside. -/
theorem insert_false_iff_outside_witness :
    (((QT_Insert (QT_New ⟨⟨0, 0⟩, ⟨100, 100⟩⟩ 4) ⟨1, ⟨500, 500⟩⟩).2 = false ↔
        BoundaryContains (QT_New ⟨⟨0, 0⟩, ⟨100, 100⟩⟩ 4).boundary
          (⟨1, ⟨500, 500⟩⟩ : QT_Object).pos = false) ∧
      ((QT_Insert (QT_New ⟨⟨0, 0⟩, ⟨100, 100⟩⟩ 4) ⟨1, ⟨500, 500⟩⟩).2 = false →
        (QT_Insert (QT_New ⟨⟨0, 0⟩, ⟨100, 100⟩⟩ 4) ⟨1, ⟨500, 500⟩⟩).1 =
            QT_New ⟨⟨0, 0⟩, ⟨100, 100⟩⟩ 4 ∧
          ∀ R : Boundary,
            QT_Query (QT_Insert (QT_New ⟨⟨0, 0⟩, ⟨100, 100⟩⟩ 4) ⟨1, ⟨500, 500⟩⟩).1 R =
              QT_Query (QT_New ⟨⟨0, 0⟩, ⟨100, 100⟩⟩ 4) R)) ∧
      (QT_Insert (QT_New ⟨⟨0, 0⟩, ⟨100, 100⟩⟩ 4) ⟨1, ⟨500, 500⟩⟩).2 = false :=
  ⟨insert_false_iff_outside (QT_New ⟨⟨0, 0⟩, ⟨100, 100⟩⟩ 4) ⟨1, ⟨500, 500⟩⟩,
    (insert_false_iff_outside (QT_New ⟨⟨0, 0⟩, ⟨100, 100⟩⟩ 4) ⟨1, ⟨500, 500⟩⟩).1.mpr
      (by with_unfolding_all decide)⟩

/-- Claim C7: `QT_Query` prunes (returns false and appends nothing) exactly
when the node's boundary does not intersect the region, and returns true
whenever it does intersect, independently of whether anything matched. -/
theorem query_prune_iff_no_intersection (qt : QuadTree) (R : Boundary) :
    (BoundaryIntersects qt.boundary R = false → QT_Query qt R = ([], false)) ∧
      (BoundaryIntersects qt.boundary R = true → (QT_Query qt R).2 = true) := by
  rcases qt with ⟨b, objects, cap, d, br⟩
  rw [boundary_mk]
  constructor
  · intro h
    simp only [QT_Query]
    rw [if_pos h]
  · intro h
    simp only [QT_Query]
    rw [if_neg (by simp [h])]
    rcases br with _ | ⟨c0, c1, c2, c3⟩ <;> rfl

/-- Witness for C7 at a disjoint region: query box far away from the root
boundary returns an empty result and false. -/
theorem query_prune_iff_no_intersection_witness :
    QT_Query (QT_New ⟨⟨0, 0⟩, ⟨100, 100⟩⟩ 4) ⟨⟨500, 500⟩, ⟨1, 1⟩⟩ = ([], false) :=
  (query_prune_iff_no_intersection (QT_New ⟨⟨0, 0⟩, ⟨100, 100⟩⟩ 4)
      ⟨⟨500, 500⟩, ⟨1, 1⟩⟩).1 (by with_unfolding_all decide)

/-- Claim C1: for any sequence of insertions into a fresh root whose boundary
contains every inserted position, querying the root's full boundary returns
exactly the multiset of inserted objects — none lost, none duplicated. -/
theorem full_query_returns_inserted_multiset (b : Boundary) (cap : ℕ)
    (objs : List QT_Object) (hcap : 1 ≤ cap) (hx : 0 ≤ b.half_dim.x)
    (hy : 0 ≤ b.half_dim.y)
    (hin : ∀ o ∈ objs, BoundaryContains b o.pos = true) :
    (QT_Query (QT_Build b cap objs) b).1.Perm objs := by
  obtain ⟨hR1, hR2, hR3, hR4⟩ :=
    foldl_insert_spec objs (QT_New b cap) (inv_new b cap hcap hx hy) rfl
  rw [show QT_Build b cap objs =
    objs.foldl (fun t o => (QT_Insert t o).1) (QT_New b cap) from rfl]
  rw [query_covered _ hR1 b (by rw [hR2]; exact boxLE_refl b)]
  rw [← Multiset.coe_eq_coe]
  rw [hR4]
  rw [show (QT_New b cap).boundary = b from rfl]
  rw [List.filter_eq_self.mpr hin]
  rw [show QT_allObjects (QT_New b cap) = [] from rfl]
  simp

/-- Witness for C1: the spec §8 scenario — root center (0,0), half extents
(100,100), capacity 4, five points forcing one subdivision; the full query
returns all five exactly once. -/
theorem full_query_returns_inserted_multiset_witness :
    (QT_Query (QT_Build ⟨⟨0, 0⟩, ⟨100, 100⟩⟩ 4
        [⟨1, ⟨10, 10⟩⟩, ⟨2, ⟨12, 12⟩⟩, ⟨3, ⟨-10, -10⟩⟩, ⟨4, ⟨10, -10⟩⟩, ⟨5, ⟨-10, 10⟩⟩])
        ⟨⟨0, 0⟩, ⟨100, 100⟩⟩).1.Perm
      [⟨1, ⟨10, 10⟩⟩, ⟨2, ⟨12, 12⟩⟩, ⟨3, ⟨-10, -10⟩⟩, ⟨4, ⟨10, -10⟩⟩, ⟨5, ⟨-10, 10⟩⟩] :=
  full_query_returns_inserted_multiset ⟨⟨0, 0⟩, ⟨100, 100⟩⟩ 4
    [⟨1, ⟨10, 10⟩⟩, ⟨2, ⟨12, 12⟩⟩, ⟨3, ⟨-10, -10⟩⟩, ⟨4, ⟨10, -10⟩⟩, ⟨5, ⟨-10, 10⟩⟩]
    (by decide) (by with_unfolding_all decide) (by with_unfolding_all decide)
    (by with_unfolding_all decide)

/-- Claim C10: for trees built from a fresh root of capacity at least 1,
`obj_count ≤ capacity` holds at every node after construction and after any
sequence of insertions (appending happens only below capacity or right after
the capacity is doubled). -/
theorem build_obj_count_le_capacity (b : Boundary) (cap : ℕ)
    (objs : List QT_Object) (hcap : 1 ≤ cap) :
    QT_countOK (QT_New b cap) ∧ QT_countOK (QT_Build b cap objs) := by
  refine ⟨by simp [QT_New, QT_countOK], ?_⟩
  rw [show QT_Build b cap objs =
    objs.foldl (fun t o => (QT_Insert t o).1) (QT_New b cap) from rfl]
  by_cases hx : 0 ≤ b.half_dim.x
  · by_cases hy : 0 ≤ b.half_dim.y
    · exact countOK_of_inv _
        (foldl_insert_spec objs (QT_New b cap) (inv_new b cap hcap hx hy) rfl).1
    · rw [foldl_insert_no_contains objs (QT_New b cap)
        (contains_false_of_neg_half (Or.inr hy))]
      simp [QT_New, QT_countOK]
  · rw [foldl_insert_no_contains objs (QT_New b cap)
      (contains_false_of_neg_half (Or.inl hx))]
    simp [QT_New, QT_countOK]

/-- Witness for C10 at a concrete build with capacity 1 (which triggers both a
subdivision and the internal-node append path). -/
theorem build_obj_count_le_capacity_witness :
    QT_countOK (QT_New ⟨⟨0, 0⟩, ⟨100, 100⟩⟩ 1) ∧
      QT_countOK (QT_Build ⟨⟨0, 0⟩, ⟨100, 100⟩⟩ 1
        [⟨1, ⟨10, 10⟩⟩, ⟨2, ⟨-10, -10⟩⟩, ⟨3, ⟨5, 5⟩⟩]) :=
  build_obj_count_le_capacity ⟨⟨0, 0⟩, ⟨100, 100⟩⟩ 1
    [⟨1, ⟨10, 10⟩⟩, ⟨2, ⟨-10, -10⟩⟩, ⟨3, ⟨5, 5⟩⟩] (by decide)

/-- Claim C5: subdividing a leaf (whose buffer is within capacity) creates
exactly four children in the slot order NW, SW, NE, SE with halved half
extents, centers offset by the child half extent, the parent's capacity, depth
`parent + 1`, and the four child boundaries cover the parent boundary
exactly. -/
theorem subdivide_creates_quadrant_children (b : Boundary) (l : List QT_Object)
    (cap d : ℕ) (hlen : l.length ≤ cap) (hx : 0 ≤ b.half_dim.x)
    (hy : 0 ≤ b.half_dim.y) :
    ∃ c0 c1 c2 c3 : QuadTree,
      QT_Subdivide (.mk b (some l) cap d none) =
          .mk b none cap d (some (c0, c1, c2, c3)) ∧
        c0.boundary = ⟨⟨b.pos.x - b.half_dim.x / 2, b.pos.y - b.half_dim.y / 2⟩,
          ⟨b.half_dim.x / 2, b.half_dim.y / 2⟩⟩ ∧
        c1.boundary = ⟨⟨b.pos.x - b.half_dim.x / 2, b.pos.y + b.half_dim.y / 2⟩,
          ⟨b.half_dim.x / 2, b.half_dim.y / 2⟩⟩ ∧
        c2.boundary = ⟨⟨b.pos.x + b.half_dim.x / 2, b.pos.y - b.half_dim.y / 2⟩,
          ⟨b.half_dim.x / 2, b.half_dim.y / 2⟩⟩ ∧
        c3.boundary = ⟨⟨b.pos.x + b.half_dim.x / 2, b.pos.y + b.half_dim.y / 2⟩,
          ⟨b.half_dim.x / 2, b.half_dim.y / 2⟩⟩ ∧
        (c0.capacity = cap ∧ c1.capacity = cap ∧ c2.capacity = cap ∧
          c3.capacity = cap) ∧
        (c0.depth = d + 1 ∧ c1.depth = d + 1 ∧ c2.depth = d + 1 ∧
          c3.depth = d + 1) ∧
        ∀ p : Vec2, BoundaryContains b p = true ↔
          (BoundaryContains c0.boundary p = true ∨
            BoundaryContains c1.boundary p = true ∨
            BoundaryContains c2.boundary p = true ∨
            BoundaryContains c3.boundary p = true) := by
  refine ⟨childNode b cap (d + 1) 0 (childFilter b l 0),
    childNode b cap (d + 1) 1 (childFilter b l 1),
    childNode b cap (d + 1) 2 (childFilter b l 2),
    childNode b cap (d + 1) 3 (childFilter b l 3), ?_, ?_, ?_, ?_, ?_,
    ⟨rfl, rfl, rfl, rfl⟩, ⟨rfl, rfl, rfl, rfl⟩, ?_⟩
  · have hsub := subdivideF_spec QT_MAX_DEPTH b (some l) cap d none (by simpa using hlen)
    rw [show QT_Subdivide (.mk b (some l) cap d none) =
      (QT_F (QT_MAX_DEPTH + 2)).2 (.mk b (some l) cap d none) from rfl, hsub]
    simp only [Option.getD_some]
  · rw [childNode_boundary, childBoundary_zero]
  · rw [childNode_boundary, childBoundary_one]
  · rw [childNode_boundary, childBoundary_two]
  · rw [childNode_boundary, childBoundary_three]
  · intro p
    constructor
    · intro hp
      obtain ⟨i, hi4, hi⟩ := exists_child_contains hp
      rw [childNode_boundary, childNode_boundary, childNode_boundary,
        childNode_boundary]
      interval_cases i
      · exact Or.inl hi
      · exact Or.inr (Or.inl hi)
      · exact Or.inr (Or.inr (Or.inl hi))
      · exact Or.inr (Or.inr (Or.inr hi))
    · intro hp
      rw [childNode_boundary, childNode_boundary, childNode_boundary,
        childNode_boundary] at hp
      rcases hp with h | h | h | h
      · exact contains_of_child_contains hx hy (by omega) h
      · exact contains_of_child_contains hx hy (by omega) h
      · exact contains_of_child_contains hx hy (by omega) h
      · exact contains_of_child_contains hx hy (by omega) h

/-- Witness for C5 at a concrete leaf with one buffered point. -/
theorem subdivide_creates_quadrant_children_witness :
    ∃ c0 c1 c2 c3 : QuadTree,
      QT_Subdivide (.mk ⟨⟨0, 0⟩, ⟨100, 100⟩⟩ (some [⟨1, ⟨10, 10⟩⟩]) 1 1 none) =
          .mk ⟨⟨0, 0⟩, ⟨100, 100⟩⟩ none 1 1 (some (c0, c1, c2, c3)) ∧
        c0.boundary = ⟨⟨0 - 100 / 2, 0 - 100 / 2⟩, ⟨100 / 2, 100 / 2⟩⟩ ∧
        c1.boundary = ⟨⟨0 - 100 / 2, 0 + 100 / 2⟩, ⟨100 / 2, 100 / 2⟩⟩ ∧
        c2.boundary = ⟨⟨0 + 100 / 2, 0 - 100 / 2⟩, ⟨100 / 2, 100 / 2⟩⟩ ∧
        c3.boundary = ⟨⟨0 + 100 / 2, 0 + 100 / 2⟩, ⟨100 / 2, 100 / 2⟩⟩ ∧
        (c0.capacity = 1 ∧ c1.capacity = 1 ∧ c2.capacity = 1 ∧ c3.capacity = 1) ∧
        (c0.depth = 1 + 1 ∧ c1.depth = 1 + 1 ∧ c2.depth = 1 + 1 ∧
          c3.depth = 1 + 1) ∧
        ∀ p : Vec2, BoundaryContains ⟨⟨0, 0⟩, ⟨100, 100⟩⟩ p = true ↔
          (BoundaryContains c0.boundary p = true ∨
            BoundaryContains c1.boundary p = true ∨
            BoundaryContains c2.boundary p = true ∨
            BoundaryContains c3.boundary p = true) :=
  subdivide_creates_quadrant_children ⟨⟨0, 0⟩, ⟨100, 100⟩⟩ [⟨1, ⟨10, 10⟩⟩] 1 1
    (by decide) (by with_unfolding_all decide) (by with_unfolding_all decide)

/-- Claim C4: subdivision of a leaf whose buffered objects all lie inside its
boundary places every buffered object into exactly one child — the first
quadrant in the order NW, SW, NE, SE whose boundary contains its position
(deterministic also for points on split lines) — and the four child buffers
together carry exactly the original multiset. -/
theorem subdivide_redistributes_each_object_once (b : Boundary)
    (l : List QT_Object) (cap d : ℕ) (hlen : l.length ≤ cap)
    (hin : ∀ o ∈ l, BoundaryContains b o.pos = true) :
    QT_Subdivide (.mk b (some l) cap d none) =
        .mk b none cap d
          (some (childNode b cap (d + 1) 0 (childFilter b l 0),
            childNode b cap (d + 1) 1 (childFilter b l 1),
            childNode b cap (d + 1) 2 (childFilter b l 2),
            childNode b cap (d + 1) 3 (childFilter b l 3))) ∧
      (∀ o ∈ l, ∃ i, childIdx b o.pos = some i ∧ i < 4 ∧
        BoundaryContains (childBoundary b i) o.pos = true ∧
        (∀ j, j < i → BoundaryContains (childBoundary b j) o.pos = false) ∧
        o ∈ childFilter b l i ∧ ∀ j, j < 4 → j ≠ i → o ∉ childFilter b l j) ∧
      (↑(childFilter b l 0) + ↑(childFilter b l 1) + ↑(childFilter b l 2) +
          ↑(childFilter b l 3) : Multiset QT_Object) = ↑l := by
  refine ⟨?_, ?_, childFilter_partition b l hin⟩
  · have hsub := subdivideF_spec QT_MAX_DEPTH b (some l) cap d none (by simpa using hlen)
    rw [show QT_Subdivide (.mk b (some l) cap d none) =
      (QT_F (QT_MAX_DEPTH + 2)).2 (.mk b (some l) cap d none) from rfl, hsub]
    simp only [Option.getD_some]
  · intro o ho
    obtain ⟨i, hi⟩ := childIdx_isSome_of_contains (hin o ho)
    refine ⟨i, hi, childIdx_some_lt hi, childIdx_some_contains hi,
      childIdx_some_first hi, ?_, ?_⟩
    · simp only [childFilter, List.mem_filter, decide_eq_true_eq]
      exact ⟨ho, hi⟩
    · intro j hj4 hji hmem
      exact hji (Option.some_injective _ ((mem_childFilter hmem).1.symm.trans hi))

/-- Witness for C4: four points, one per quadrant, plus the center point, which
lies on both split lines and goes deterministically to the first (NW) child. -/
theorem subdivide_redistributes_each_object_once_witness :
    QT_Subdivide (.mk ⟨⟨0, 0⟩, ⟨100, 100⟩⟩
        (some [⟨1, ⟨10, 10⟩⟩, ⟨2, ⟨-10, -10⟩⟩, ⟨3, ⟨0, 0⟩⟩]) 4 1 none) =
        .mk ⟨⟨0, 0⟩, ⟨100, 100⟩⟩ none 4 1
          (some (childNode ⟨⟨0, 0⟩, ⟨100, 100⟩⟩ 4 2 0
              (childFilter ⟨⟨0, 0⟩, ⟨100, 100⟩⟩
                [⟨1, ⟨10, 10⟩⟩, ⟨2, ⟨-10, -10⟩⟩, ⟨3, ⟨0, 0⟩⟩] 0),
            childNode ⟨⟨0, 0⟩, ⟨100, 100⟩⟩ 4 2 1
              (childFilter ⟨⟨0, 0⟩, ⟨100, 100⟩⟩
                [⟨1, ⟨10, 10⟩⟩, ⟨2, ⟨-10, -10⟩⟩, ⟨3, ⟨0, 0⟩⟩] 1),
            childNode ⟨⟨0, 0⟩, ⟨100, 100⟩⟩ 4 2 2
              (childFilter ⟨⟨0, 0⟩, ⟨100, 100⟩⟩
                [⟨1, ⟨10, 10⟩⟩, ⟨2, ⟨-10, -10⟩⟩, ⟨3, ⟨0, 0⟩⟩] 2),
            childNode ⟨⟨0, 0⟩, ⟨100, 100⟩⟩ 4 2 3
              (childFilter ⟨⟨0, 0⟩, ⟨100, 100⟩⟩
                [⟨1, ⟨10, 10⟩⟩, ⟨2, ⟨-10, -10⟩⟩, ⟨3, ⟨0, 0⟩⟩] 3))) ∧
      (∀ o ∈ [(⟨1, ⟨10, 10⟩⟩ : QT_Object), ⟨2, ⟨-10, -10⟩⟩, ⟨3, ⟨0, 0⟩⟩],
        ∃ i, childIdx ⟨⟨0, 0⟩, ⟨100, 100⟩⟩ o.pos = some i ∧ i < 4 ∧
          BoundaryContains (childBoundary ⟨⟨0, 0⟩, ⟨100, 100⟩⟩ i) o.pos = true ∧
          (∀ j, j < i →
            BoundaryContains (childBoundary ⟨⟨0, 0⟩, ⟨100, 100⟩⟩ j) o.pos = false) ∧
          o ∈ childFilter ⟨⟨0, 0⟩, ⟨100, 100⟩⟩
              [⟨1, ⟨10, 10⟩⟩, ⟨2, ⟨-10, -10⟩⟩, ⟨3, ⟨0, 0⟩⟩] i ∧
          ∀ j, j < 4 → j ≠ i →
            o ∉ childFilter ⟨⟨0, 0⟩, ⟨100, 100⟩⟩
              [⟨1, ⟨10, 10⟩⟩, ⟨2, ⟨-10, -10⟩⟩, ⟨3, ⟨0, 0⟩⟩] j) ∧
      (↑(childFilter ⟨⟨0, 0⟩, ⟨100, 100⟩⟩
            [⟨1, ⟨10, 10⟩⟩, ⟨2, ⟨-10, -10⟩⟩, ⟨3, ⟨0, 0⟩⟩] 0) +
          ↑(childFilter ⟨⟨0, 0⟩, ⟨100, 100⟩⟩
            [⟨1, ⟨10, 10⟩⟩, ⟨2, ⟨-10, -10⟩⟩, ⟨3, ⟨0, 0⟩⟩] 1) +
          ↑(childFilter ⟨⟨0, 0⟩, ⟨100, 100⟩⟩
            [⟨1, ⟨10, 10⟩⟩, ⟨2, ⟨-10, -10⟩⟩, ⟨3, ⟨0, 0⟩⟩] 2) +
          ↑(childFilter ⟨⟨0, 0⟩, ⟨100, 100⟩⟩
            [⟨1, ⟨10, 10⟩⟩, ⟨2, ⟨-10, -10⟩⟩, ⟨3, ⟨0, 0⟩⟩] 3) : Multiset QT_Object) =
        ↑[(⟨1, ⟨10, 10⟩⟩ : QT_Object), ⟨2, ⟨-10, -10⟩⟩, ⟨3, ⟨0, 0⟩⟩] :=
  subdivide_redistributes_each_object_once ⟨⟨0, 0⟩, ⟨100, 100⟩⟩
    [⟨1, ⟨10, 10⟩⟩, ⟨2, ⟨-10, -10⟩⟩, ⟨3, ⟨0, 0⟩⟩] 4 1 (by decide)
    (by with_unfolding_all decide)

/-- Claim C3 (amended): when `QT_Insert` reaches a full leaf it subdivides
whenever the leaf's depth is at most `QT_MAX_DEPTH` (including at the maximum
depth itself), routing the object into a child subtree with the node's buffer
freed and its capacity unchanged; only when the depth strictly exceeds
`QT_MAX_DEPTH` does it double the capacity and append instead of creating
children — so no created node's depth ever exceeds `QT_MAX_DEPTH + 1`. -/
theorem insert_full_leaf_depth_policy :
    (∀ (b : Boundary) (l : List QT_Object) (cap d : ℕ) (obj : QT_Object),
      l.length = cap → BoundaryContains b obj.pos = true → d ≤ QT_MAX_DEPTH →
      (QT_Insert (.mk b (some l) cap d none) obj).2 = true ∧
        ((QT_Insert (.mk b (some l) cap d none) obj).1).branches.isSome = true ∧
        ((QT_Insert (.mk b (some l) cap d none) obj).1).objects = none ∧
        ((QT_Insert (.mk b (some l) cap d none) obj).1).capacity = cap) ∧
      (∀ (b : Boundary) (l : List QT_Object) (cap d : ℕ) (obj : QT_Object),
        l.length = cap → BoundaryContains b obj.pos = true → QT_MAX_DEPTH < d →
        QT_Insert (.mk b (some l) cap d none) obj =
          (.mk b (some (l ++ [obj])) (cap * 2) d none, true)) ∧
      (∀ (b : Boundary) (cap : ℕ) (objs : List QT_Object), 1 ≤ cap →
        QT_maxDepth (QT_Build b cap objs) ≤ QT_MAX_DEPTH + 1) := by
  refine ⟨?_, ?_, ?_⟩
  · intro b l cap d obj hfull hcon hd
    rw [QT_Insert_eq]
    rw [show QT_MAX_DEPTH + 2 = QT_MAX_DEPTH + 1 + 1 from rfl, QT_F_succ_fst]
    simp only [insertBody]
    rw [if_neg (by simp [hcon])]
    rw [if_neg (by
      rintro ⟨hlt, -⟩
      simp only [QT_obj_count, objList, objects_mk, Option.getD_some,
        capacity_mk] at hlt
      omega)]
    rw [if_pos (show QT_IsLeaf (QuadTree.mk b (some l) cap d none) = true ∧
      (QuadTree.mk b (some l) cap d none).depth ≤ QT_MAX_DEPTH from ⟨rfl, hd⟩)]
    have hsub := subdivideF_spec QT_MAX_DEPTH b (some l) cap d none
      (by simp [hfull])
    rw [show subdivideBody (QT_F (QT_MAX_DEPTH + 1)).1 =
      (QT_F (QT_MAX_DEPTH + 2)).2 from rfl, hsub]
    simp only [Option.getD_some]
    have ht := @tryInsert4_childNodes_succeeds QT_MAX_DEPTH b cap (d + 1)
      (childFilter b l 0) (childFilter b l 1) (childFilter b l 2)
      (childFilter b l 3) obj hcon
    simp only [insertChildren]
    rw [if_pos ht]
    exact ⟨rfl, rfl, rfl, rfl⟩
  · intro b l cap d obj hfull hcon hd
    rw [QT_Insert_eq]
    rw [show QT_MAX_DEPTH + 2 = QT_MAX_DEPTH + 1 + 1 from rfl, QT_F_succ_fst]
    simp only [insertBody]
    rw [if_neg (by simp [hcon])]
    rw [if_neg (by
      rintro ⟨hlt, -⟩
      simp only [QT_obj_count, objList, objects_mk, Option.getD_some,
        capacity_mk] at hlt
      omega)]
    rw [if_neg (by
      rintro ⟨-, hdd⟩
      simp only [depth_mk] at hdd
      omega)]
    simp only [QT_grow, boundary_mk, objList_mk, capacity_mk, depth_mk,
      branches_mk, Option.getD_some]
  · intro b cap objs hcap
    rw [show QT_Build b cap objs =
      objs.foldl (fun t o => (QT_Insert t o).1) (QT_New b cap) from rfl]
    by_cases hx : 0 ≤ b.half_dim.x
    · by_cases hy : 0 ≤ b.half_dim.y
      · obtain ⟨hR1, -, hR3, -⟩ :=
          foldl_insert_spec objs (QT_New b cap) (inv_new b cap hcap hx hy) rfl
        have hle := maxDepth_le_of_inv _ hR1
        rw [hR3] at hle
        omega
      · rw [foldl_insert_no_contains objs (QT_New b cap)
          (contains_false_of_neg_half (Or.inr hy))]
        simp only [QT_New, QT_maxDepth]
        omega
    · rw [foldl_insert_no_contains objs (QT_New b cap)
        (contains_false_of_neg_half (Or.inl hx))]
      simp only [QT_New, QT_maxDepth]
      omega

set_option maxRecDepth 1000000 in
/-- Counterexample to C3 as stated: two insertions of the same point into a
capacity-1 root cascade subdivision all the way down and create nodes of depth
`QT_MAX_DEPTH + 1 = 11`, strictly exceeding the configured maximum; moreover a
full leaf exactly at the maximum depth subdivides (creates children, capacity
unchanged) instead of doubling its buffer. -/
theorem insert_full_leaf_depth_policy_cx :
    QT_MAX_DEPTH < QT_maxDepth (QT_Build ⟨⟨0, 0⟩, ⟨1024, 1024⟩⟩ 1
        [⟨7, ⟨0, 0⟩⟩, ⟨7, ⟨0, 0⟩⟩]) ∧
      ((QT_Insert (.mk ⟨⟨0, 0⟩, ⟨16, 16⟩⟩ (some [⟨1, ⟨1, 1⟩⟩]) 1 QT_MAX_DEPTH none)
          ⟨2, ⟨1, 1⟩⟩).1).branches.isSome = true ∧
      ((QT_Insert (.mk ⟨⟨0, 0⟩, ⟨16, 16⟩⟩ (some [⟨1, ⟨1, 1⟩⟩]) 1 QT_MAX_DEPTH none)
          ⟨2, ⟨1, 1⟩⟩).1).capacity = 1 := by
  refine ⟨?_, ?_, ?_⟩ <;> with_unfolding_all decide

/-- Witness for C3 (amended) at concrete inputs: a full capacity-1 leaf at
depth 1 subdivides; a full leaf at depth 11 grows and appends; a small build
respects the depth bound. -/
theorem insert_full_leaf_depth_policy_witness :
    ((QT_Insert (.mk ⟨⟨0, 0⟩, ⟨100, 100⟩⟩ (some [⟨1, ⟨10, 10⟩⟩]) 1 1 none)
        ⟨2, ⟨5, 5⟩⟩).2 = true ∧
      ((QT_Insert (.mk ⟨⟨0, 0⟩, ⟨100, 100⟩⟩ (some [⟨1, ⟨10, 10⟩⟩]) 1 1 none)
          ⟨2, ⟨5, 5⟩⟩).1).branches.isSome = true ∧
      ((QT_Insert (.mk ⟨⟨0, 0⟩, ⟨100, 100⟩⟩ (some [⟨1, ⟨10, 10⟩⟩]) 1 1 none)
          ⟨2, ⟨5, 5⟩⟩).1).objects = none ∧
      ((QT_Insert (.mk ⟨⟨0, 0⟩, ⟨100, 100⟩⟩ (some [⟨1, ⟨10, 10⟩⟩]) 1 1 none)
          ⟨2, ⟨5, 5⟩⟩).1).capacity = 1) ∧
    (QT_Insert (.mk ⟨⟨0, 0⟩, ⟨100, 100⟩⟩ (some [⟨1, ⟨10, 10⟩⟩]) 1 11 none)
        ⟨2, ⟨5, 5⟩⟩ =
      (.mk ⟨⟨0, 0⟩, ⟨100, 100⟩⟩ (some ([⟨1, ⟨10, 10⟩⟩] ++ [⟨2, ⟨5, 5⟩⟩])) (1 * 2)
        11 none, true)) ∧
    QT_maxDepth (QT_Build ⟨⟨0, 0⟩, ⟨100, 100⟩⟩ 4 [⟨1, ⟨10, 10⟩⟩]) ≤
      QT_MAX_DEPTH + 1 :=
  ⟨insert_full_leaf_depth_policy.1 ⟨⟨0, 0⟩, ⟨100, 100⟩⟩ [⟨1, ⟨10, 10⟩⟩] 1 1
      ⟨2, ⟨5, 5⟩⟩ (by decide) (by with_unfolding_all decide) (by decide),
    insert_full_leaf_depth_policy.2.1 ⟨⟨0, 0⟩, ⟨100, 100⟩⟩ [⟨1, ⟨10, 10⟩⟩] 1 11
      ⟨2, ⟨5, 5⟩⟩ (by decide) (by with_unfolding_all decide) (by decide),
    insert_full_leaf_depth_policy.2.2 ⟨⟨0, 0⟩, ⟨100, 100⟩⟩ 4 [⟨1, ⟨10, 10⟩⟩]
      (by decide)⟩

/-- Claim C2 (code-bug evaluation): with capacity 1, after the first two
insertions subdivide the root, the third `QT_Insert` call on the now-internal
root skips both the append branch (`objects == NULL`) and the subdivision
branch (not a leaf), falls into the "maximum depth" grow branch, and stores
the object in the internal root's own buffer — contradicting the code's own
comments and the spec's invariant that internal nodes hold no objects. -/
theorem insert_into_internal_node_stores_in_its_buffer :
    QT_IsLeaf (QT_Build ⟨⟨0, 0⟩, ⟨100, 100⟩⟩ 1
        [⟨1, ⟨10, 10⟩⟩, ⟨2, ⟨-10, -10⟩⟩, ⟨3, ⟨5, 5⟩⟩]) = false ∧
      (QT_Build ⟨⟨0, 0⟩, ⟨100, 100⟩⟩ 1
          [⟨1, ⟨10, 10⟩⟩, ⟨2, ⟨-10, -10⟩⟩, ⟨3, ⟨5, 5⟩⟩]).objects =
        some [⟨3, ⟨5, 5⟩⟩] ∧
      (QT_Build ⟨⟨0, 0⟩, ⟨100, 100⟩⟩ 1
          [⟨1, ⟨10, 10⟩⟩, ⟨2, ⟨-10, -10⟩⟩, ⟨3, ⟨5, 5⟩⟩]).capacity = 2 := by
  refine ⟨?_, ?_, ?_⟩ <;> with_unfolding_all decide

end Quadtree
